import Mathlib

/-!
# Verification of `serena/tools/symbol_tools.py`

A shallow embedding of the symbol-tool layer of the repository
(`src/src/serena/tools/symbol_tools.py`) together with proofs about the
claims of the specification.

Python values flowing through the tools (symbol dictionaries, raw LSP
location results, hover payloads) are modelled by the inductive type
`PyVal`; Python dictionaries are ordered association lists, matching
insertion-ordered Python `dict` semantics.  Python exceptions are
modelled by `PyErr` and fallible code returns `Except PyErr _`.
External collaborators (the project abstraction, `os.path.relpath`,
`textwrap.dedent`, Python's `str()` on non-scalar objects) are passed in
as function parameters.
-/

/-- Python exception classes raised by the embedded code.
In the spec's error taxonomy: `fileNotFoundError` surfaces as NotFound,
`valueError` as InvalidArgument, `assertionError` as InvariantViolation. -/
inductive PyErr where
  | keyError (k : String)
  | typeError
  | valueError
  | attributeError
  | fileNotFoundError
  | assertionError
  deriving Repr, DecidableEq

/-- A Python value as it occurs in the tool layer: JSON-like data plus the
`SymbolKind` enum objects (an `IntEnum` in `solidlsp.ls_types`).
Dictionaries are insertion-ordered association lists. -/
inductive PyVal where
  | none
  | bool (b : Bool)
  | int (n : Int)
  | str (s : String)
  | symbolKind (n : Int)
  | list (xs : List PyVal)
  | dict (kvs : List (String × PyVal))

abbrev PyDict := List (String × PyVal)

/-- Python's identity test `v is None`. -/
def PyVal.isNone : PyVal → Bool
  | .none => true
  | _ => false

/-- Python truthiness (`if obj:`). -/
def pyTruthy : PyVal → Bool
  | .none => false
  | .bool b => b
  | .int n => n != 0
  | .str s => !s.isEmpty
  | .symbolKind _ => true
  | .list xs => !xs.isEmpty
  | .dict kvs => !kvs.isEmpty

/-- `d.get(k, default)` on a Python dict. -/
def dictGetD (d : PyDict) (k : String) (dflt : PyVal) : PyVal :=
  match d.find? (fun kv => kv.1 == k) with
  | some kv => kv.2
  | Option.none => dflt

/-- `d[k] = v` on a Python dict: replaces in place if the key exists,
otherwise appends at the end (insertion order). -/
def dictSet (d : PyDict) (k : String) (v : PyVal) : PyDict :=
  if d.any (fun kv => kv.1 == k) then
    d.map (fun kv => if kv.1 == k then (k, v) else kv)
  else d ++ [(k, v)]

/-- `d.pop(k, None)` / `del d[k]`: removes the key if present. -/
def dictPop (d : PyDict) (k : String) : PyDict :=
  d.filter (fun kv => kv.1 != k)

/-- Whether a key is present (`k in d`). -/
def dictHas (d : PyDict) (k : String) : Bool :=
  d.any (fun kv => kv.1 == k)

/-- Python subscripting `v[k]` with a string key: a `dict` yields the value
or raises `KeyError`; every other value raises `TypeError`. -/
def pySub (v : PyVal) (k : String) : Except PyErr PyVal :=
  match v with
  | .dict kvs =>
    match kvs.find? (fun kv => kv.1 == k) with
    | some kv => Except.ok kv.2
    | Option.none => Except.error (PyErr.keyError k)
  | _ => Except.error PyErr.typeError

/-- Python `x + 1` where an `int` is expected: `bool` coerces to `int`
(`True == 1`), a `SymbolKind` is an `IntEnum`, anything else raises
`TypeError`. -/
def pyAsInt (v : PyVal) : Except PyErr Int :=
  match v with
  | .int n => Except.ok n
  | .bool b => Except.ok (if b then 1 else 0)
  | .symbolKind n => Except.ok n
  | _ => Except.error PyErr.typeError

/-- `_format_range` (symbol_tools.py lines 21-24): renders a zero-indexed
LSP range as a 1-indexed `"sl:sc-el:ec"` string. -/
def formatRange (rng : PyVal) : Except PyErr String := do
  let start ← pySub rng "start"
  let e ← pySub rng "end"
  let sl ← pyAsInt (← pySub start "line")
  let sc ← pyAsInt (← pySub start "character")
  let el ← pyAsInt (← pySub e "line")
  let ec ← pyAsInt (← pySub e "character")
  Except.ok s!"{sl + 1}:{sc + 1}-{el + 1}:{ec + 1}"

/-- `_sanitize_symbol_dict` (symbol_tools.py lines 27-45): replaces the raw
`location` entry by its `relative_path`, formats `range`, and pops `name`
(an unconditional `pop`, raising `KeyError` when `name` is absent). -/
def sanitizeSymbolDict (d : PyDict) : Except PyErr PyDict := do
  let loc := dictGetD d "location" (PyVal.dict [])
  let sRelativePath ← match loc with
    | .dict kvs => Except.ok (dictGetD kvs "relative_path" PyVal.none)
    | _ => Except.error PyErr.attributeError
  let d := if !sRelativePath.isNone then dictSet d "relative_path" sRelativePath else d
  let d := dictPop d "location"
  let rng := dictGetD d "range" PyVal.none
  let d ← if pyTruthy rng then do
      let fr ← formatRange rng
      Except.ok (dictSet d "range" (PyVal.str fr))
    else Except.ok d
  if dictHas d "name" then
    Except.ok (dictPop d "name")
  else
    Except.error (PyErr.keyError "name")

/-- The element-keeping test of `_clean_none_and_empty` (lines 56 and 62):
`v is not None and (not isinstance(v, (list, dict)) or len(v) > 0)`. -/
def keepVal : PyVal → Bool
  | .none => false
  | .list xs => !xs.isEmpty
  | .dict kvs => !kvs.isEmpty
  | _ => true

mutual

/-- `_clean_none_and_empty` (lines 48-64): recursively removes `None`
values and empty lists/dicts from dictionaries and lists; every member is
cleaned first and is kept only if the cleaned member passes `keepVal`. -/
def cleanNoneAndEmpty : PyVal → PyVal
  | .none => .none
  | .bool b => .bool b
  | .int n => .int n
  | .str s => .str s
  | .symbolKind n => .symbolKind n
  | .list xs => .list (cleanList xs)
  | .dict kvs => .dict (cleanDict kvs)

/-- The list comprehension of `_clean_none_and_empty` (lines 59-63). -/
def cleanList : List PyVal → List PyVal
  | [] => []
  | x :: xs =>
    let c := cleanNoneAndEmpty x
    if keepVal c then c :: cleanList xs else cleanList xs

/-- The dict comprehension of `_clean_none_and_empty` (lines 53-57). -/
def cleanDict : List (String × PyVal) → List (String × PyVal)
  | [] => []
  | kv :: kvs =>
    let c := cleanNoneAndEmpty kv.2
    if keepVal c then (kv.1, c) :: cleanDict kvs else cleanDict kvs

end

/-- The loop body of `_format_definition_entries` (lines 397-426).
`relpath` models `os.path.relpath(abs_path, project_root)`; `retrieve`
models `project.retrieve_content_around_line(path, line, before, after)`
followed by `.to_display_string()`. -/
def formatDefinitionEntry (relpath : String → String)
    (retrieve : PyVal → PyVal → Nat → Nat → String) (definition : PyDict) :
    Except PyErr PyDict := do
  let definitionPath := dictGetD definition "relativePath" PyVal.none
  let absoluteDefinitionPath := dictGetD definition "absolutePath" PyVal.none
  let definitionPath ←
    if definitionPath.isNone && !absoluteDefinitionPath.isNone then
      match absoluteDefinitionPath with
      | .str s => Except.ok (PyVal.str (relpath s))
      | _ => Except.error PyErr.typeError
    else Except.ok definitionPath
  let snippet ←
    if !definitionPath.isNone then do
      let rng ← pySub (PyVal.dict definition) "range"
      let start ← pySub rng "start"
      let line ← pySub start "line"
      Except.ok (PyVal.str (retrieve definitionPath line 2 2))
    else Except.ok PyVal.none
  let rng := dictGetD definition "range" PyVal.none
  let formattedRange ←
    if pyTruthy rng then (formatRange rng).map PyVal.str
    else Except.ok PyVal.none
  let entry : PyDict :=
    [("relative_path", definitionPath), ("range", formattedRange), ("snippet", snippet)]
  let entry :=
    if definitionPath.isNone then dictSet entry "uri" (dictGetD definition "uri" PyVal.none)
    else entry
  Except.ok entry

/-- `_format_definition_entries` (lines 395-428). -/
def formatDefinitionEntries (relpath : String → String)
    (retrieve : PyVal → PyVal → Nat → Nat → String) (definitions : List PyDict) :
    Except PyErr (List PyDict) :=
  definitions.mapM (formatDefinitionEntry relpath retrieve)

/-- The loop body of `_format_reference_entries` (lines 455-486).  Unlike
the definition flow, the snippet block re-reads `range` with `.get` and
guards on its truthiness before retrieving content. -/
def formatReferenceEntry (relpath : String → String)
    (retrieve : PyVal → PyVal → Nat → Nat → String) (ref : PyDict) :
    Except PyErr PyDict := do
  let refPath := dictGetD ref "relativePath" PyVal.none
  let absoluteRefPath := dictGetD ref "absolutePath" PyVal.none
  let refPath ←
    if refPath.isNone && !absoluteRefPath.isNone then
      match absoluteRefPath with
      | .str s => Except.ok (PyVal.str (relpath s))
      | _ => Except.error PyErr.typeError
    else Except.ok refPath
  let snippet ←
    if !refPath.isNone then do
      let rng := dictGetD ref "range" PyVal.none
      if pyTruthy rng then do
        let start ← pySub rng "start"
        let line ← pySub start "line"
        Except.ok (PyVal.str (retrieve refPath line 2 2))
      else Except.ok PyVal.none
    else Except.ok PyVal.none
  let rng := dictGetD ref "range" PyVal.none
  let formattedRange ←
    if pyTruthy rng then (formatRange rng).map PyVal.str
    else Except.ok PyVal.none
  let entry : PyDict :=
    [("relative_path", refPath), ("range", formattedRange), ("snippet", snippet)]
  let entry :=
    if refPath.isNone then dictSet entry "uri" (dictGetD ref "uri" PyVal.none)
    else entry
  Except.ok entry

/-- `_format_reference_entries` (lines 452-488). -/
def formatReferenceEntries (relpath : String → String)
    (retrieve : PyVal → PyVal → Nat → Nat → String) (references : List PyDict) :
    Except PyErr (List PyDict) :=
  references.mapM (formatReferenceEntry relpath retrieve)

/-- `"\n\n".join(parts)`: every part must be a string, otherwise Python
raises `TypeError`. -/
def pyJoin (sep : String) (parts : List PyVal) : Except PyErr PyVal :=
  match parts.mapM (fun p => match p with | .str s => some s | _ => Option.none) with
  | some ss => Except.ok (PyVal.str (String.intercalate sep ss))
  | Option.none => Except.error PyErr.typeError

/-- `GetHoverInfoTool.apply` (lines 358-392) from the point where the raw
hover result of `ls.request_hover` is available.  `pstr` models Python's
`str()` applied to a non-string value. -/
def applyGetHoverInfo (pstr : PyVal → String) (result : Option PyDict) :
    Except PyErr PyVal :=
  match result with
  | Option.none => Except.ok (PyVal.str "No hover information available.")
  | some r =>
    let contents := dictGetD r "contents" PyVal.none
    if !pyTruthy contents then Except.ok (PyVal.str "No content in hover result.")
    else match contents with
      | .str s => Except.ok (PyVal.str s)
      | .dict kvs => Except.ok (dictGetD kvs "value" (PyVal.str (pstr (PyVal.dict kvs))))
      | .list entries =>
        let parts := entries.foldl (fun acc part =>
          match part with
          | .str s => acc ++ [PyVal.str s]
          | .dict kvs => acc ++ [dictGetD kvs "value" (PyVal.str (pstr (PyVal.dict kvs)))]
          | _ => acc) []
        pyJoin "\n\n" parts
      | other => Except.ok (PyVal.str (pstr other))

/-- Modelled from the spec: `SymbolKind` of `solidlsp.ls_types` (not under
`src/`) is "a fixed 26-value enumeration"; constructing it from an integer
outside `1..26` raises `ValueError` ("Global numeric kind values ... a
closed enumeration type with explicit int-conversion at the boundary,
failing fast on out-of-range values"). -/
def symbolKindOfInt (k : Int) : Except PyErr Int :=
  if 1 ≤ k ∧ k ≤ 26 then Except.ok k else Except.error PyErr.valueError

/-- Modelled from the spec: the symbolic labels of the 26 symbol kinds,
taken from the enumeration in the spec (§4.3 / find_symbol docstring). -/
def symbolKindName (k : Int) : String :=
  let names := ["file", "module", "namespace", "package", "class", "method",
    "property", "field", "constructor", "enum", "interface", "function",
    "variable", "constant", "string", "number", "boolean", "array", "object",
    "key", "null", "enum member", "struct", "event", "operator",
    "type parameter"]
  if 1 ≤ k ∧ k ≤ 26 then names[(k - 1).toNat]! else toString k

/-- `[SymbolKind(k) for k in kinds] if kinds else None` (lines 176-177 and
218-219): an empty kind list is falsy and parses to `None`; otherwise every
element is converted, failing with `ValueError` on out-of-range values. -/
def parseKinds (kinds : List Int) : Except PyErr (Option (List Int)) :=
  if !kinds.isEmpty then (kinds.mapM symbolKindOfInt).map some
  else Except.ok Option.none

/-- `FindSymbolTool.apply` (lines 125-188), modelled up to the sanitized
symbol dictionaries (`self._to_output` and `self._limit_length` are
external serialization collaborators from `tools_base`).  `findByName`
models `symbol_retriever.find_by_name`; the symbols it returns are
modelled directly by their `to_dict(kind=True, location=True, ...)`
forms. -/
def applyFindSymbol
    (findByName : String → Option (List Int) → Option (List Int) → Bool → String → List PyDict)
    (namePathPattern : String) (relativePath : String)
    (includeKinds excludeKinds : List Int) (substringMatching : Bool) :
    Except PyErr (List PyDict) := do
  let parsedIncludeKinds ← parseKinds includeKinds
  let parsedExcludeKinds ← parseKinds excludeKinds
  let symbols := findByName namePathPattern parsedIncludeKinds parsedExcludeKinds
    substringMatching relativePath
  symbols.mapM sanitizeSymbolDict

/-- An LSP range with zero-indexed start/end positions (spec §3 `range`). -/
structure LSRange where
  startLine : Int
  startCharacter : Int
  endLine : Int
  endCharacter : Int

/-- The raw-dict form of an `LSRange`. -/
def LSRange.toPyVal (r : LSRange) : PyVal :=
  .dict [("start", .dict [("line", .int r.startLine), ("character", .int r.startCharacter)]),
         ("end", .dict [("line", .int r.endLine), ("character", .int r.endCharacter)])]

/-- Modelled from the spec: the `Symbol` data model of §3 (the `Symbol`
class and its `location` live outside `src/`): a symbol has a `name`, a
`name_path`, a `kind`, a `range` and a `location` carrying a relative file
path (possibly absent) and the range. -/
structure RSymbol where
  name : String
  namePath : List String
  kind : Int
  rng : LSRange
  relativePath : Option String

/-- Modelled from the spec: `Symbol.to_dict(kind=True, location=True,
depth=0, include_body=False)` serializes the §3 fields of the symbol,
collapsing `location` into a dict with `relative_path` and `range`
(spec §3: "location: relative file path + range"). -/
def RSymbol.toDict (s : RSymbol) : PyDict :=
  [("name", .str s.name),
   ("name_path", .str (String.intercalate "/" s.namePath)),
   ("kind", .int s.kind),
   ("range", s.rng.toPyVal),
   ("location", .dict
     [("relative_path",
       match s.relativePath with | some p => .str p | Option.none => PyVal.none),
      ("range", s.rng.toPyVal)])]

/-- One element of `symbol_retriever.find_referencing_symbols`' result: a
referencing symbol together with the line of the reference (spec §6:
`sequence<{symbol: Symbol, line: int}>`). -/
structure SymbolReference where
  symbol : RSymbol
  line : Int

/-- The loop body of `FindReferencingSymbolsTool.apply` (lines 229-239):
`include_body` is the constant `False` (line 217), so the snippet block
always runs; a referencing symbol with no `location.relative_path` trips
the `assert` of line 234, raising `AssertionError`; otherwise a 1-line
context snippet is attached under `content_around_reference`. -/
def referenceEntry (retrieve : PyVal → PyVal → Nat → Nat → String)
    (ref : SymbolReference) : Except PyErr PyDict := do
  let refDict ← sanitizeSymbolDict ref.symbol.toDict
  match ref.symbol.relativePath with
  | Option.none => Except.error PyErr.assertionError
  | some refRelativePath =>
    let contentAroundRef := retrieve (PyVal.str refRelativePath) (PyVal.int ref.line) 1 1
    Except.ok (dictSet refDict "content_around_reference" (PyVal.str contentAroundRef))

/-- `FindReferencingSymbolsTool.apply` (lines 197-241), modelled up to the
list of reference dictionaries (`_to_output`/`_limit_length` are external
serialization collaborators). -/
def applyFindReferencingSymbols
    (findReferencingSymbols : String → String → Option (List Int) → Option (List Int) → List SymbolReference)
    (retrieve : PyVal → PyVal → Nat → Nat → String)
    (namePath : String) (relativePath : String)
    (includeKinds excludeKinds : List Int) : Except PyErr (List PyDict) := do
  let parsedIncludeKinds ← parseKinds includeKinds
  let parsedExcludeKinds ← parseKinds excludeKinds
  let referencesInSymbols := findReferencingSymbols namePath relativePath
    parsedIncludeKinds parsedExcludeKinds
  referencesInSymbols.mapM (referenceEntry retrieve)

/-- `GetSymbolsOverviewTool.apply` (lines 93-116), modelled up to the
result of the symbol-retrieval call.  `pathExists` and `isDir` model
`os.path.exists`/`os.path.isdir` on the joined project path;
`getSymbolOverview` models `symbol_retriever.get_symbol_overview`, whose
mapping result is indexed with `[relative_path]`. -/
def applyGetSymbolsOverview (pathExists isDir : Bool)
    (getSymbolOverview : String → List (String × PyVal)) (relativePath : String) :
    Except PyErr PyVal :=
  if !pathExists then Except.error PyErr.fileNotFoundError
  else if isDir then Except.error PyErr.valueError
  else
    match (getSymbolOverview relativePath).find? (fun kv => kv.1 == relativePath) with
    | some kv => Except.ok kv.2
    | Option.none => Except.error (PyErr.keyError relativePath)

mutual

/-- A size measure on `PyVal` (every leaf counts 1), used to justify the
termination of `serializeSymbol`'s recursion over `children`. -/
def PyVal.sz : PyVal → Nat
  | .list xs => 1 + szList xs
  | .dict kvs => 1 + szDict kvs
  | _ => 1

def szList : List PyVal → Nat
  | [] => 0
  | x :: xs => PyVal.sz x + szList xs

def szDict : List (String × PyVal) → Nat
  | [] => 0
  | kv :: kvs => PyVal.sz kv.2 + szDict kvs

end

theorem PyVal.sz_pos : ∀ v : PyVal, 0 < v.sz := by
  intro v; cases v <;> simp [PyVal.sz]

theorem szList_mem {c : PyVal} {cs : List PyVal} (h : c ∈ cs) : c.sz ≤ szList cs := by
  induction cs with
  | nil => cases h
  | cons x xs ih =>
    cases h with
    | head => simp [szList]
    | tail _ h2 => have := ih h2; simp [szList]; omega

theorem szDict_mem {kv : String × PyVal} {d : PyDict} (h : kv ∈ d) :
    kv.2.sz ≤ szDict d := by
  induction d with
  | nil => cases h
  | cons a as ih =>
    cases h with
    | head => simp [szDict]
    | tail _ h2 => have := ih h2; have := PyVal.sz_pos a.2; simp [szDict]; omega

theorem dictGetD_sz {d : PyDict} {k : String} {dflt v : PyVal}
    (h : dictGetD d k dflt = v) : v = dflt ∨ v.sz ≤ szDict d := by
  unfold dictGetD at h
  cases hf : d.find? (fun kv => kv.1 == k) with
  | none => rw [hf] at h; exact Or.inl h.symm
  | some kv =>
    rw [hf] at h
    have hmem := List.mem_of_find?_eq_some hf
    subst h
    exact Or.inr (szDict_mem hmem)

theorem szDict_filter_le (d : PyDict) (p : String × PyVal → Bool) :
    szDict (d.filter p) ≤ szDict d := by
  induction d with
  | nil => simp [szDict]
  | cons a as ih =>
    by_cases h : p a
    · simp [List.filter, h, szDict]; omega
    · simp [List.filter, h, szDict]
      have := PyVal.sz_pos a.2
      omega

theorem szDict_dictPop_le (d : PyDict) (k : String) :
    szDict (dictPop d k) ≤ szDict d :=
  szDict_filter_le d _

theorem szDict_map_replace_le (d : PyDict) (k : String) (s : String) :
    szDict (d.map (fun kv => if kv.1 == k then (k, PyVal.str s) else kv)) ≤ szDict d := by
  induction d with
  | nil => simp [szDict]
  | cons a as ih =>
    by_cases ha : a.1 == k
    · have := PyVal.sz_pos a.2
      simp only [List.map, ha, if_pos, szDict, PyVal.sz]
      omega
    · simp only [List.map, ha, if_neg, Bool.false_eq_true, not_false_eq_true, if_false, szDict]
      omega

theorem szDict_dictSet_str_le {d : PyDict} {k : String} (s : String)
    (h : dictHas d k = true) : szDict (dictSet d k (PyVal.str s)) ≤ szDict d := by
  unfold dictSet
  unfold dictHas at h
  rw [if_pos h]
  exact szDict_map_replace_le d k s

theorem dictHas_of_getD_ne_default {d : PyDict} {k : String} {dflt v : PyVal}
    (h : dictGetD d k dflt = v) (hne : v ≠ dflt) : dictHas d k = true := by
  unfold dictGetD at h
  unfold dictHas
  cases hf : d.find? (fun kv => kv.1 == k) with
  | none => rw [hf] at h; exact absurd h.symm hne
  | some kv =>
    rw [List.any_eq_true]
    have hmem := List.mem_of_find?_eq_some hf
    have hk := List.find?_some hf
    exact ⟨kv, hmem, hk⟩

/-- Lines 519-526 of `_serialize_symbol`: render the `kind` field as its
symbolic label.  A `SymbolKind` enum object uses `.name`; an `int` (which
includes `bool` in Python) is converted through `SymbolKind(...)`, falling
back to `str(kind_value)` on `ValueError`. -/
def serializeKindStep (serialized : PyDict) : PyDict :=
  match dictGetD serialized "kind" PyVal.none with
  | .symbolKind n => dictSet serialized "kind" (PyVal.str (symbolKindName n))
  | .int n =>
    if 1 ≤ n ∧ n ≤ 26 then dictSet serialized "kind" (PyVal.str (symbolKindName n))
    else dictSet serialized "kind" (PyVal.str (toString n))
  | .bool b =>
    if b then dictSet serialized "kind" (PyVal.str (symbolKindName 1))
    else dictSet serialized "kind" (PyVal.str "False")
  | _ => serialized

theorem szDict_serializeKindStep_le (d : PyDict) :
    szDict (serializeKindStep d) ≤ szDict d := by
  unfold serializeKindStep
  cases hg : dictGetD d "kind" PyVal.none with
  | symbolKind n =>
    exact szDict_dictSet_str_le _ (dictHas_of_getD_ne_default hg (by simp))
  | int n =>
    have hh := dictHas_of_getD_ne_default hg (by simp)
    dsimp only
    by_cases hr : 1 ≤ n ∧ n ≤ 26
    · rw [if_pos hr]; exact szDict_dictSet_str_le _ hh
    · rw [if_neg hr]; exact szDict_dictSet_str_le _ hh
  | bool b =>
    have hh := dictHas_of_getD_ne_default hg (by simp)
    dsimp only
    cases b
    · rw [if_neg (by simp)]; exact szDict_dictSet_str_le _ hh
    · rw [if_pos rfl]; exact szDict_dictSet_str_le _ hh
  | none => exact Nat.le_refl _
  | str s => exact Nat.le_refl _
  | list xs => exact Nat.le_refl _
  | dict kvs => exact Nat.le_refl _

/-- Lines 532-534 of `_serialize_symbol`: format a truthy `range`. -/
def serializeRangeStep (serialized : PyDict) : Except PyErr PyDict :=
  let rng := dictGetD serialized "range" PyVal.none
  if pyTruthy rng then do
    let fr ← formatRange rng
    Except.ok (dictSet serialized "range" (PyVal.str fr))
  else Except.ok serialized

/-- Python `dict(x)`: a mapping copies; an iterable of `[key, value]`
pairs with string keys also converts; anything else raises. -/
def pyDictOf : PyVal → Except PyErr PyDict
  | .dict kvs => Except.ok kvs
  | .list xs => xs.mapM (fun x => match x with
    | .list [PyVal.str k, v] => Except.ok (k, v)
    | .list _ => Except.error PyErr.valueError
    | _ => Except.error PyErr.typeError)
  | _ => Except.error PyErr.typeError

/-- Python `str()` inside an f-string: a string renders as itself;
rendering of any other value is supplied by the `pstr` parameter. -/
def pyFStr (pstr : PyVal → String) : PyVal → String
  | .str s => s
  | v => pstr v

/-- Lines 536-551 of `_serialize_symbol`: collapse `location` into a
`"path:range"` string when both a truthy path (relativePath, else uri) and
a truthy range are available; otherwise store the reduced location dict
(dropping `uri`/`absolutePath` when a truthy `relativePath` exists). -/
def serializeLocationStep (pstr : PyVal → String) (serialized : PyDict) :
    Except PyErr PyDict := do
  let location := dictGetD serialized "location" PyVal.none
  if location.isNone then Except.ok serialized
  else do
    let locDict ← pyDictOf location
    let path := dictGetD locDict "relativePath" PyVal.none
    let path := if !pyTruthy path then dictGetD locDict "uri" PyVal.none else path
    let locRng := dictGetD locDict "range" PyVal.none
    if pyTruthy path && pyTruthy locRng then do
      let fr ← formatRange locRng
      Except.ok (dictSet serialized "location" (PyVal.str (pyFStr pstr path ++ ":" ++ fr)))
    else
      let locDict :=
        if pyTruthy (dictGetD locDict "relativePath" PyVal.none) then
          dictPop (dictPop locDict "uri") "absolutePath"
        else locDict
      Except.ok (dictSet serialized "location" (PyVal.dict locDict))

/-- Python `str.splitlines()` for `"\n"`-terminated text (the only line
terminator occurring in symbol bodies): a trailing newline does not
produce a final empty line. -/
def pySplitlines (s : String) : List String :=
  if s.isEmpty then []
  else
    let parts := s.splitOn "\n"
    if s.endsWith "\n" then parts.dropLast else parts

/-- Python whitespace, as stripped by `str.lstrip()`. -/
def pyWhitespaceChar (c : Char) : Bool :=
  c == ' ' || c == '\t' || c == '\n' || c == '\r' || c == '\x0b' || c == '\x0c'

/-- Python `str.lstrip()`. -/
def pyLstrip (s : String) : String :=
  String.mk (s.data.dropWhile pyWhitespaceChar)

/-- Lines 553-568 of `_serialize_symbol`: strip the first body line and
dedent the remaining block (`textwrap.dedent`, a Python standard-library
function, is supplied as the `dedent` parameter). -/
def serializeBodyStep (dedent : String → String) (serialized : PyDict) : PyDict :=
  match dictGetD serialized "body" PyVal.none with
  | .str b =>
    let lines := pySplitlines b
    match lines with
    | [] => serialized
    | firstLine0 :: rest =>
      let firstLine := pyLstrip firstLine0
      if rest.length > 0 then
        let restDedented := dedent (String.intercalate "\n" rest)
        dictSet serialized "body" (PyVal.str (firstLine ++ "\n" ++ restDedented))
      else
        dictSet serialized "body" (PyVal.str firstLine)
  | _ => serialized

/-- Monadic map that carries a membership proof into the element function
(used for the recursion of `serializeSymbol` over `children`). -/
def mapMemM {α β : Type} : (xs : List α) → ((a : α) → a ∈ xs → Except PyErr β) →
    Except PyErr (List β)
  | [], _ => Except.ok []
  | x :: xs, f => do
    let y ← f x (List.mem_cons_self x xs)
    let ys ← mapMemM xs (fun a h => f a (List.mem_cons_of_mem x h))
    Except.ok (y :: ys)

/-- Lines 532-570 of `_serialize_symbol`: the steps after the recursive
`children` serialization (format `range`, collapse `location`, dedent
`body`). -/
def serializeSymbolTail (pstr : PyVal → String) (dedent : String → String)
    (serialized : PyDict) : Except PyErr PyVal := do
  let serialized ← serializeRangeStep serialized
  let serialized ← serializeLocationStep pstr serialized
  Except.ok (PyVal.dict (serializeBodyStep dedent serialized))

/-- `_serialize_symbol` (lines 512-570): pops `parent`/`glyph`/
`selectionRange`, renders `kind`, recursively serializes a list-valued
`children`, then formats `range`, `location` and `body`.  `pstr` models
Python's `str()` on non-string values and `dedent` models
`textwrap.dedent`; applying the function to a non-dict raises
(`AttributeError` on the first `.pop`). -/
def serializeSymbol (pstr : PyVal → String) (dedent : String → String)
    (symbol : PyVal) : Except PyErr PyVal :=
  match symbol with
  | .dict kvs =>
    let serialized := dictPop (dictPop (dictPop kvs "parent") "glyph") "selectionRange"
    let serialized := serializeKindStep serialized
    (match hch : dictGetD serialized "children" PyVal.none with
     | .list children => do
        let children' ← mapMemM children (fun child _ => serializeSymbol pstr dedent child)
        serializeSymbolTail pstr dedent (dictSet serialized "children" (PyVal.list children'))
     | _ => serializeSymbolTail pstr dedent serialized)
  | _ => Except.error PyErr.attributeError
termination_by symbol.sz
decreasing_by
  rename_i hmem
  have h1 := dictGetD_sz hch
  have h2 : (PyVal.list children).sz ≤ szDict serialized := by
    cases h1 with
    | inl hh => cases hh
    | inr hh => exact hh
  have h3 := szList_mem hmem
  have h4 : szDict serialized ≤ szDict kvs := by
    calc szDict serialized
        ≤ szDict (dictPop (dictPop (dictPop kvs "parent") "glyph") "selectionRange") :=
          szDict_serializeKindStep_le _
      _ ≤ szDict (dictPop (dictPop kvs "parent") "glyph") := szDict_dictPop_le _ _
      _ ≤ szDict (dictPop kvs "parent") := szDict_dictPop_le _ _
      _ ≤ szDict kvs := szDict_dictPop_le _ _
  simp only [PyVal.sz] at h2 ⊢
  omega

/- ### Dictionary lookup lemmas -/

theorem dictGetD_dictSet_self (d : PyDict) (k : String) (v dflt : PyVal) :
    dictGetD (dictSet d k v) k dflt = v := by
  unfold dictSet
  by_cases h : d.any (fun kv => kv.1 == k)
  · rw [if_pos h]
    unfold dictHas at *
    induction d with
    | nil => simp at h
    | cons a as ih =>
      by_cases ha : a.1 == k
      · simp [dictGetD, List.find?, ha]
      · simp only [List.any_cons, ha, Bool.false_or] at h
        simp only [List.map, ha, Bool.false_eq_true, not_false_eq_true, if_neg]
        unfold dictGetD at *
        simp only [List.find?, ha]
        exact ih h
  · rw [if_neg h]
    induction d with
    | nil => simp [dictGetD, List.find?]
    | cons a as ih =>
      simp only [List.any_cons, Bool.or_eq_true, not_or] at h
      unfold dictGetD at *
      simp only [List.cons_append, List.find?, Bool.not_eq_true] at *
      rw [h.1]
      exact ih h.2

theorem find?_map_replace_ne {d : PyDict} {k k' : String} {v : PyVal}
    (h : (k' == k) = false) :
    (d.map (fun kv => if kv.1 == k' then (k', v) else kv)).find? (fun kv => kv.1 == k) =
      d.find? (fun kv => kv.1 == k) := by
  induction d with
  | nil => rfl
  | cons a as ih =>
    by_cases ha : a.1 == k'
    · have hak : (a.1 == k) = false := by
        simp only [beq_iff_eq] at ha
        rw [ha]; exact h
      simp only [List.map, List.find?, ha, if_pos, h, hak]
      exact ih
    · simp only [List.map, List.find?, ha, Bool.false_eq_true, not_false_eq_true, if_neg]
      by_cases hak : a.1 == k
      · simp [List.find?, hak]
      · simp only [List.find?, hak, Bool.false_eq_true]
        exact ih

theorem find?_append_single_ne {d : PyDict} {k k' : String} {v : PyVal}
    (h : (k' == k) = false) :
    (d ++ [(k', v)]).find? (fun kv => kv.1 == k) = d.find? (fun kv => kv.1 == k) := by
  induction d with
  | nil => simp [List.find?, h]
  | cons a as ih =>
    by_cases hak : a.1 == k
    · simp [List.find?, hak]
    · simp only [List.cons_append, List.find?, hak, Bool.false_eq_true]
      exact ih

theorem dictGetD_dictSet_ne {k k' : String} (d : PyDict) (v dflt : PyVal)
    (h : k ≠ k') : dictGetD (dictSet d k' v) k dflt = dictGetD d k dflt := by
  have hk : (k' == k) = false := by
    simp only [beq_eq_false_iff_ne, ne_eq]
    exact fun hh => h hh.symm
  unfold dictSet dictGetD
  by_cases hc : d.any (fun kv => kv.1 == k')
  · rw [if_pos hc, find?_map_replace_ne hk]
  · rw [if_neg hc, find?_append_single_ne hk]

theorem dictHas_eq_find? (d : PyDict) (k : String) :
    dictHas d k = (d.find? (fun kv => kv.1 == k)).isSome := by
  induction d with
  | nil => rfl
  | cons a as ih =>
    by_cases hak : a.1 == k
    · simp [dictHas, List.find?, hak]
    · simp only [dictHas, List.any_cons, hak, Bool.false_or, List.find?,
        Bool.false_eq_true] at *
      exact ih

theorem dictHas_dictSet_ne {k k' : String} (d : PyDict) (v : PyVal)
    (h : k ≠ k') : dictHas (dictSet d k' v) k = dictHas d k := by
  have hk : (k' == k) = false := by
    simp only [beq_eq_false_iff_ne, ne_eq]
    exact fun hh => h hh.symm
  rw [dictHas_eq_find?, dictHas_eq_find?]
  unfold dictSet
  by_cases hc : d.any (fun kv => kv.1 == k')
  · rw [if_pos hc, find?_map_replace_ne hk]
  · rw [if_neg hc, find?_append_single_ne hk]

theorem find?_filter_ne {d : PyDict} {k k' : String} (h : (k' == k) = false) :
    (d.filter (fun kv => kv.1 != k')).find? (fun kv => kv.1 == k) =
      d.find? (fun kv => kv.1 == k) := by
  induction d with
  | nil => rfl
  | cons a as ih =>
    by_cases ha : a.1 == k'
    · have hak : (a.1 == k) = false := by
        simp only [beq_iff_eq] at ha
        rw [ha]; exact h
      simp only [List.filter, bne, ha, Bool.not_true, List.find?, hak, Bool.false_eq_true]
      exact ih
    · simp only [List.filter, bne, ha, Bool.not_false, List.find?]
      by_cases hak : a.1 == k
      · simp [hak]
      · simp only [hak, Bool.false_eq_true]
        exact ih

theorem dictGetD_dictPop_ne {k k' : String} (d : PyDict) (dflt : PyVal)
    (h : k ≠ k') : dictGetD (dictPop d k') k dflt = dictGetD d k dflt := by
  have hk : (k' == k) = false := by
    simp only [beq_eq_false_iff_ne, ne_eq]
    exact fun hh => h hh.symm
  unfold dictPop dictGetD
  rw [find?_filter_ne hk]

theorem dictHas_dictPop_ne {k k' : String} (d : PyDict)
    (h : k ≠ k') : dictHas (dictPop d k') k = dictHas d k := by
  have hk : (k' == k) = false := by
    simp only [beq_eq_false_iff_ne, ne_eq]
    exact fun hh => h hh.symm
  rw [dictHas_eq_find?, dictHas_eq_find?]
  unfold dictPop
  rw [find?_filter_ne hk]

theorem dictHas_dictPop_self (d : PyDict) (k : String) :
    dictHas (dictPop d k) k = false := by
  induction d with
  | nil => rfl
  | cons a as ih =>
    by_cases ha : a.1 == k
    · simpa [dictPop, List.filter, bne, ha] using ih
    · simpa [dictHas, dictPop, List.filter, bne, ha] using ih

theorem dictGetD_eq_of_has {d : PyDict} {k : String} (h : dictHas d k = true)
    (dflt₁ dflt₂ : PyVal) : dictGetD d k dflt₁ = dictGetD d k dflt₂ := by
  rw [dictHas_eq_find?] at h
  unfold dictGetD
  cases hf : d.find? (fun kv => kv.1 == k) with
  | none => rw [hf] at h; simp at h
  | some kv => rfl

/-- Structural induction principle for `PyVal` with membership hypotheses
for the nested lists and dictionaries. -/
theorem PyVal.inductionOn {motive : PyVal → Prop}
    (hnone : motive .none) (hbool : ∀ b, motive (.bool b))
    (hint : ∀ n, motive (.int n)) (hstr : ∀ s, motive (.str s))
    (hsk : ∀ n, motive (.symbolKind n))
    (hlist : ∀ xs, (∀ x ∈ xs, motive x) → motive (.list xs))
    (hdict : ∀ kvs, (∀ kv ∈ kvs, motive kv.2) → motive (.dict kvs)) :
    ∀ v, motive v := by
  have main : ∀ n v, PyVal.sz v ≤ n → motive v := by
    intro n
    induction n with
    | zero =>
      intro v hv
      have := PyVal.sz_pos v
      omega
    | succ m ih =>
      intro v hv
      cases v with
      | none => exact hnone
      | bool b => exact hbool b
      | int k => exact hint k
      | str s => exact hstr s
      | symbolKind k => exact hsk k
      | list xs =>
        apply hlist
        intro x hx
        apply ih
        have h1 := szList_mem hx
        simp only [PyVal.sz] at hv
        omega
      | dict kvs =>
        apply hdict
        intro kv hkv
        apply ih
        have h1 := szDict_mem hkv
        simp only [PyVal.sz] at hv
        omega
  exact fun v => main v.sz v (Nat.le_refl _)

mutual

/-- Nothing inside the value (at any nesting depth of its lists and
dictionaries) is `None`, an empty list, or an empty dictionary. -/
def noEmpties : PyVal → Bool
  | .list xs => noEmptiesList xs
  | .dict kvs => noEmptiesDict kvs
  | _ => true

def noEmptiesList : List PyVal → Bool
  | [] => true
  | x :: xs => keepVal x && noEmpties x && noEmptiesList xs

def noEmptiesDict : List (String × PyVal) → Bool
  | [] => true
  | kv :: kvs => keepVal kv.2 && noEmpties kv.2 && noEmptiesDict kvs

end

mutual

/-- The scalar (non-container, non-`None`) leaves of a value, in document
order: strings (empty ones included), ints (`0` included), bools (`False`
included) and `SymbolKind` objects. -/
def scalarLeaves : PyVal → List PyVal
  | .none => []
  | .bool b => [.bool b]
  | .int n => [.int n]
  | .str s => [.str s]
  | .symbolKind n => [.symbolKind n]
  | .list xs => scalarLeavesList xs
  | .dict kvs => scalarLeavesDict kvs

def scalarLeavesList : List PyVal → List PyVal
  | [] => []
  | x :: xs => scalarLeaves x ++ scalarLeavesList xs

def scalarLeavesDict : List (String × PyVal) → List PyVal
  | [] => []
  | kv :: kvs => scalarLeaves kv.2 ++ scalarLeavesDict kvs

end

theorem scalarLeaves_eq_nil_of_not_keep {v : PyVal} (h : keepVal v = false) :
    scalarLeaves v = [] := by
  cases v with
  | none => rfl
  | list xs => cases xs with
    | nil => rfl
    | cons x xs => simp [keepVal] at h
  | dict kvs => cases kvs with
    | nil => rfl
    | cons kv kvs => simp [keepVal] at h
  | bool b => simp [keepVal] at h
  | int n => simp [keepVal] at h
  | str s => simp [keepVal] at h
  | symbolKind n => simp [keepVal] at h

theorem cleanList_noEmpties (xs : List PyVal)
    (h : ∀ x ∈ xs, noEmpties (cleanNoneAndEmpty x) = true) :
    noEmptiesList (cleanList xs) = true := by
  induction xs with
  | nil => rfl
  | cons x xs ih =>
    have hx := h x (List.mem_cons_self x xs)
    have hxs := ih (fun y hy => h y (List.mem_cons_of_mem x hy))
    unfold cleanList
    by_cases hk : keepVal (cleanNoneAndEmpty x)
    · simp only [hk, if_pos, noEmptiesList, Bool.and_eq_true]
      exact ⟨⟨trivial, hx⟩, hxs⟩
    · simp only [hk, Bool.false_eq_true, not_false_eq_true, if_neg]
      exact hxs

theorem cleanDict_noEmpties (kvs : List (String × PyVal))
    (h : ∀ kv ∈ kvs, noEmpties (cleanNoneAndEmpty kv.2) = true) :
    noEmptiesDict (cleanDict kvs) = true := by
  induction kvs with
  | nil => rfl
  | cons kv kvs ih =>
    have hx := h kv (List.mem_cons_self kv kvs)
    have hxs := ih (fun y hy => h y (List.mem_cons_of_mem kv hy))
    unfold cleanDict
    by_cases hk : keepVal (cleanNoneAndEmpty kv.2)
    · simp only [hk, if_pos, noEmptiesDict, Bool.and_eq_true]
      exact ⟨⟨trivial, hx⟩, hxs⟩
    · simp only [hk, Bool.false_eq_true, not_false_eq_true, if_neg]
      exact hxs

theorem cleanList_scalarLeaves (xs : List PyVal)
    (h : ∀ x ∈ xs, scalarLeaves (cleanNoneAndEmpty x) = scalarLeaves x) :
    scalarLeavesList (cleanList xs) = scalarLeavesList xs := by
  induction xs with
  | nil => rfl
  | cons x xs ih =>
    have hx := h x (List.mem_cons_self x xs)
    have hxs := ih (fun y hy => h y (List.mem_cons_of_mem x hy))
    unfold cleanList
    by_cases hk : keepVal (cleanNoneAndEmpty x)
    · simp only [hk, if_pos, scalarLeavesList]
      rw [hx, hxs]
    · simp only [hk, Bool.false_eq_true, not_false_eq_true, if_neg]
      have hempty : scalarLeaves x = [] := by
        rw [← hx]
        exact scalarLeaves_eq_nil_of_not_keep (by simpa using hk)
      simp only [scalarLeavesList, hempty, List.nil_append]
      exact hxs

theorem cleanDict_scalarLeaves (kvs : List (String × PyVal))
    (h : ∀ kv ∈ kvs, scalarLeaves (cleanNoneAndEmpty kv.2) = scalarLeaves kv.2) :
    scalarLeavesDict (cleanDict kvs) = scalarLeavesDict kvs := by
  induction kvs with
  | nil => rfl
  | cons kv kvs ih =>
    have hx := h kv (List.mem_cons_self kv kvs)
    have hxs := ih (fun y hy => h y (List.mem_cons_of_mem kv hy))
    unfold cleanDict
    by_cases hk : keepVal (cleanNoneAndEmpty kv.2)
    · simp only [hk, if_pos, scalarLeavesDict]
      rw [hx, hxs]
    · simp only [hk, Bool.false_eq_true, not_false_eq_true, if_neg]
      have hempty : scalarLeaves kv.2 = [] := by
        rw [← hx]
        exact scalarLeaves_eq_nil_of_not_keep (by simpa using hk)
      simp only [scalarLeavesDict, hempty, List.nil_append]
      exact hxs

/- ### Claim theorems -/

/-- **C9** (confirmed).  The post-processing cleaning pass
`_clean_none_and_empty` removes, recursively at every nesting depth of
dicts and lists, every `None` value, every empty list, and every empty
mapping: the cleaned result contains none of these inside it. -/
theorem clean_removes_all_nested_empties (v : PyVal) :
    noEmpties (cleanNoneAndEmpty v) = true := by
  induction v using PyVal.inductionOn with
  | hnone => rfl
  | hbool b => rfl
  | hint n => rfl
  | hstr s => rfl
  | hsk n => rfl
  | hlist xs ih =>
    unfold cleanNoneAndEmpty noEmpties
    exact cleanList_noEmpties xs ih
  | hdict kvs ih =>
    unfold cleanNoneAndEmpty noEmpties
    exact cleanDict_noEmpties kvs (fun kv hkv => ih kv hkv)

/-- **C10** (confirmed).  The recursive cleaning pass preserves
non-container scalar values even when they are falsy: the scalar leaves
(strings — the empty string included, ints — `0` included, bools —
`False` included) of the cleaned structure are exactly those of the
input, at every nesting depth; only `None` and empty containers are
removed. -/
theorem clean_preserves_scalar_leaves (v : PyVal) :
    scalarLeaves (cleanNoneAndEmpty v) = scalarLeaves v := by
  induction v using PyVal.inductionOn with
  | hnone => rfl
  | hbool b => rfl
  | hint n => rfl
  | hstr s => rfl
  | hsk n => rfl
  | hlist xs ih =>
    unfold cleanNoneAndEmpty scalarLeaves
    exact cleanList_scalarLeaves xs ih
  | hdict kvs ih =>
    unfold cleanNoneAndEmpty scalarLeaves
    exact cleanDict_scalarLeaves kvs (fun kv hkv => ih kv hkv)



theorem sanitize_ok_shape {d d' : PyDict} (h : sanitizeSymbolDict d = Except.ok d') :
    ∃ d2 : PyDict,
      dictHas d2 "location" = false ∧
      (∀ k, k ≠ "location" → k ≠ "relative_path" →
        dictGetD d2 k PyVal.none = dictGetD d k PyVal.none ∧ dictHas d2 k = dictHas d k) ∧
      ((∃ fr, d' = dictPop (dictSet d2 "range" (PyVal.str fr)) "name") ∨
       (pyTruthy (dictGetD d2 "range" PyVal.none) = false ∧ d' = dictPop d2 "name")) := by
  unfold sanitizeSymbolDict at h
  cases hloc : dictGetD d "location" (PyVal.dict []) with
  | dict lkvs =>
    rw [hloc] at h
    simp only [bind, Except.bind] at h
    by_cases hrel : (!(dictGetD lkvs "relative_path" PyVal.none).isNone) = true
    · rw [if_pos hrel] at h
      set d1 := dictSet d "relative_path" (dictGetD lkvs "relative_path" PyVal.none) with hd1
      set d2 := dictPop d1 "location" with hd2
      have hkey : ∀ k, k ≠ "location" → k ≠ "relative_path" →
          dictGetD d2 k PyVal.none = dictGetD d k PyVal.none ∧ dictHas d2 k = dictHas d k := by
        intro k hk1 hk2
        rw [hd2, hd1]
        constructor
        · rw [dictGetD_dictPop_ne _ _ hk1, dictGetD_dictSet_ne _ _ _ hk2]
        · rw [dictHas_dictPop_ne _ hk1, dictHas_dictSet_ne _ _ hk2]
      refine ⟨d2, dictHas_dictPop_self d1 "location", hkey, ?_⟩
      by_cases ht : pyTruthy (dictGetD d2 "range" PyVal.none) = true
      · rw [if_pos ht] at h
        cases hfr : formatRange (dictGetD d2 "range" PyVal.none) with
        | error e => rw [hfr] at h; cases h
        | ok fr =>
          rw [hfr] at h
          dsimp only at h
          by_cases hname : dictHas (dictSet d2 "range" (PyVal.str fr)) "name" = true
          · rw [if_pos hname] at h
            left
            exact ⟨fr, (Except.ok.injEq _ _ ▸ h).symm⟩
          · rw [if_neg hname] at h; cases h
      · rw [if_neg ht] at h
        by_cases hname : dictHas d2 "name" = true
        · rw [if_pos hname] at h
          right
          exact ⟨by simpa using ht, (Except.ok.injEq _ _ ▸ h).symm⟩
        · rw [if_neg hname] at h; cases h
    · rw [if_neg hrel] at h
      set d2 := dictPop d "location" with hd2
      have hkey : ∀ k, k ≠ "location" → k ≠ "relative_path" →
          dictGetD d2 k PyVal.none = dictGetD d k PyVal.none ∧ dictHas d2 k = dictHas d k := by
        intro k hk1 _
        rw [hd2]
        exact ⟨dictGetD_dictPop_ne _ _ hk1, dictHas_dictPop_ne _ hk1⟩
      refine ⟨d2, dictHas_dictPop_self d "location", hkey, ?_⟩
      by_cases ht : pyTruthy (dictGetD d2 "range" PyVal.none) = true
      · rw [if_pos ht] at h
        cases hfr : formatRange (dictGetD d2 "range" PyVal.none) with
        | error e => rw [hfr] at h; cases h
        | ok fr =>
          rw [hfr] at h
          dsimp only at h
          by_cases hname : dictHas (dictSet d2 "range" (PyVal.str fr)) "name" = true
          · rw [if_pos hname] at h
            left
            exact ⟨fr, (Except.ok.injEq _ _ ▸ h).symm⟩
          · rw [if_neg hname] at h; cases h
      · rw [if_neg ht] at h
        by_cases hname : dictHas d2 "name" = true
        · rw [if_pos hname] at h
          right
          exact ⟨by simpa using ht, (Except.ok.injEq _ _ ▸ h).symm⟩
        · rw [if_neg hname] at h; cases h
  | none => rw [hloc] at h; simp [bind, Except.bind] at h
  | bool b => rw [hloc] at h; simp [bind, Except.bind] at h
  | int n => rw [hloc] at h; simp [bind, Except.bind] at h
  | str s => rw [hloc] at h; simp [bind, Except.bind] at h
  | symbolKind n => rw [hloc] at h; simp [bind, Except.bind] at h
  | list xs => rw [hloc] at h; simp [bind, Except.bind] at h

theorem dictGetD_of_not_has {d : PyDict} {k : String} (dflt : PyVal)
    (h : dictHas d k = false) : dictGetD d k dflt = dflt := by
  rw [dictHas_eq_find?] at h
  unfold dictGetD
  cases hf : d.find? (fun kv => kv.1 == k) with
  | none => rfl
  | some kv => rw [hf] at h; simp at h

/-- **C4** (corrected; amended claim).  Symbol sanitization is *not*
idempotent: a successful sanitization removes the `name` and `location`
keys, and because `_sanitize_symbol_dict` pops `name` unconditionally
(and re-formats an already-formatted `range` string), applying it to the
already-sanitized dictionary always raises an exception instead of
returning the same object. -/
theorem sanitize_second_application_fails (d d' : PyDict)
    (h : sanitizeSymbolDict d = Except.ok d') :
    dictHas d' "name" = false ∧ dictHas d' "location" = false ∧
    ∃ e, sanitizeSymbolDict d' = Except.error e := by
  obtain ⟨d2, hloc2, _, hcase⟩ := sanitize_ok_shape h
  have hname' : dictHas d' "name" = false := by
    rcases hcase with ⟨fr, rfl⟩ | ⟨_, rfl⟩
    · exact dictHas_dictPop_self _ _
    · exact dictHas_dictPop_self _ _
  have hloc' : dictHas d' "location" = false := by
    rcases hcase with ⟨fr, rfl⟩ | ⟨_, rfl⟩
    · rw [dictHas_dictPop_ne _ (by decide : ("location" : String) ≠ "name"),
          dictHas_dictSet_ne _ _ (by decide : ("location" : String) ≠ "range")]
      exact hloc2
    · rw [dictHas_dictPop_ne _ (by decide : ("location" : String) ≠ "name")]
      exact hloc2
  refine ⟨hname', hloc', ?_⟩
  unfold sanitizeSymbolDict
  rw [dictGetD_of_not_has _ hloc']
  simp only [bind, Except.bind]
  have hnone : (!(dictGetD ([] : PyDict) "relative_path" PyVal.none).isNone) = false := rfl
  rw [hnone]
  simp only [Bool.false_eq_true, if_neg, not_false_eq_true]
  rw [dictGetD_dictPop_ne _ _ (by decide : ("range" : String) ≠ "location"),
      dictHas_dictPop_ne _ (by decide : ("name" : String) ≠ "location")]
  rcases hcase with ⟨fr, rfl⟩ | ⟨hfalsy, rfl⟩
  · rw [dictGetD_dictPop_ne _ _ (by decide : ("range" : String) ≠ "name"),
        dictGetD_dictSet_self]
    by_cases ht : pyTruthy (PyVal.str fr) = true
    · rw [if_pos ht]
      have hfr : formatRange (PyVal.str fr) = Except.error PyErr.typeError := rfl
      rw [hfr]
      exact ⟨PyErr.typeError, rfl⟩
    · rw [if_neg ht]
      rw [hname']
      exact ⟨PyErr.keyError "name", by simp⟩
  · rw [dictGetD_dictPop_ne _ _ (by decide : ("range" : String) ≠ "name")]
    rw [hfalsy]
    simp only [Bool.false_eq_true, if_neg, not_false_eq_true]
    rw [hname']
    exact ⟨PyErr.keyError "name", by simp⟩

/-- **C4** (counterexample).  At the concrete symbol dictionary
`{"name": "f"}`, sanitization succeeds and yields `{}`, but sanitizing
the already-sanitized form raises `KeyError("name")` instead of
returning the same object: `sanitize(sanitize(s)) = sanitize(s)` fails. -/
theorem sanitize_idempotence_counterexample :
    sanitizeSymbolDict [("name", PyVal.str "f")] = Except.ok [] ∧
    sanitizeSymbolDict [] = Except.error (PyErr.keyError "name") :=
  ⟨rfl, rfl⟩

/-- Witness for `sanitize_second_application_fails` at the concrete input
`{"name": "f"}`. -/
theorem sanitize_second_application_fails_witness :
    dictHas ([] : PyDict) "name" = false ∧ dictHas ([] : PyDict) "location" = false ∧
    ∃ e, sanitizeSymbolDict [] = Except.error e :=
  sanitize_second_application_fails [("name", PyVal.str "f")] [] rfl

theorem mapM_symbolKindOfInt_error {ks : List Int}
    (h : ∃ k ∈ ks, ¬(1 ≤ k ∧ k ≤ 26)) :
    ks.mapM symbolKindOfInt = Except.error PyErr.valueError := by
  induction ks with
  | nil => obtain ⟨k, hk, _⟩ := h; cases hk
  | cons a as ih =>
    rw [List.mapM_cons]
    by_cases ha : 1 ≤ a ∧ a ≤ 26
    · have hk' : ∃ k ∈ as, ¬(1 ≤ k ∧ k ≤ 26) := by
        obtain ⟨k, hk, hbad⟩ := h
        cases hk with
        | head => exact absurd ha hbad
        | tail _ h2 => exact ⟨k, h2, hbad⟩
      have hok : symbolKindOfInt a = Except.ok a := by
        unfold symbolKindOfInt; rw [if_pos ha]
      rw [hok, ih hk']
      rfl
    · have herr : symbolKindOfInt a = Except.error PyErr.valueError := by
        unfold symbolKindOfInt; rw [if_neg ha]
      rw [herr]
      rfl

theorem mapM_symbolKindOfInt_ok {ks : List Int}
    (h : ∀ k ∈ ks, 1 ≤ k ∧ k ≤ 26) :
    ks.mapM symbolKindOfInt = Except.ok ks := by
  induction ks with
  | nil => rfl
  | cons a as ih =>
    rw [List.mapM_cons]
    have hok : symbolKindOfInt a = Except.ok a := by
      unfold symbolKindOfInt; rw [if_pos (h a (List.mem_cons_self a as))]
    rw [hok, ih (fun k hk => h k (List.mem_cons_of_mem a hk))]
    rfl

theorem parseKinds_error {ks : List Int} (h : ∃ k ∈ ks, ¬(1 ≤ k ∧ k ≤ 26)) :
    parseKinds ks = Except.error PyErr.valueError := by
  have hne : (!ks.isEmpty) = true := by
    obtain ⟨k, hk, _⟩ := h
    cases ks with
    | nil => cases hk
    | cons a as => rfl
  unfold parseKinds
  rw [if_pos hne, mapM_symbolKindOfInt_error h]
  rfl

theorem parseKinds_ok {ks : List Int} (h : ∀ k ∈ ks, 1 ≤ k ∧ k ≤ 26) :
    ∃ o, parseKinds ks = Except.ok o := by
  unfold parseKinds
  by_cases hne : (!ks.isEmpty) = true
  · rw [if_pos hne, mapM_symbolKindOfInt_ok h]
    exact ⟨some ks, rfl⟩
  · rw [if_neg hne]
    exact ⟨Option.none, rfl⟩

/-- **C6** (confirmed).  For every call to find-symbol or
find-referencing-symbols whose `include_kinds` or `exclude_kinds` list
contains an integer outside the fixed 26-value symbol-kind enumeration,
the operation fails with `ValueError` (the InvalidArgument error of the
spec's taxonomy) before any search executes: the result is the error for
*every* choice of the symbol-retrieval collaborator, so no search result
is ever consulted. -/
theorem invalid_kinds_fail_before_search
    (findByName : String → Option (List Int) → Option (List Int) → Bool → String → List PyDict)
    (findReferencingSymbols : String → String → Option (List Int) → Option (List Int) → List SymbolReference)
    (retrieve : PyVal → PyVal → Nat → Nat → String)
    (namePathPattern namePath relativePath : String) (substringMatching : Bool)
    (includeKinds excludeKinds : List Int)
    (h : ∃ k ∈ includeKinds ++ excludeKinds, ¬(1 ≤ k ∧ k ≤ 26)) :
    applyFindSymbol findByName namePathPattern relativePath includeKinds excludeKinds
      substringMatching = Except.error PyErr.valueError ∧
    applyFindReferencingSymbols findReferencingSymbols retrieve namePath relativePath
      includeKinds excludeKinds = Except.error PyErr.valueError := by
  by_cases hinc : ∃ k ∈ includeKinds, ¬(1 ≤ k ∧ k ≤ 26)
  · have h1 := parseKinds_error hinc
    constructor
    · unfold applyFindSymbol
      rw [h1]
      rfl
    · unfold applyFindReferencingSymbols
      rw [h1]
      rfl
  · have hincok : ∀ k ∈ includeKinds, 1 ≤ k ∧ k ≤ 26 := by
      push_neg at hinc
      exact fun k hk => hinc k hk
    have hexc : ∃ k ∈ excludeKinds, ¬(1 ≤ k ∧ k ≤ 26) := by
      obtain ⟨k, hk, hbad⟩ := h
      rcases List.mem_append.mp hk with hk1 | hk2
      · exact absurd (hincok k hk1) hbad
      · exact ⟨k, hk2, hbad⟩
    obtain ⟨o, ho⟩ := parseKinds_ok hincok
    have h2 := parseKinds_error hexc
    constructor
    · unfold applyFindSymbol
      rw [ho]
      simp only [bind, Except.bind]
      rw [h2]
    · unfold applyFindReferencingSymbols
      rw [ho]
      simp only [bind, Except.bind]
      rw [h2]

/-- Witness for `invalid_kinds_fail_before_search` with the out-of-range
kind `0` in `include_kinds`. -/
theorem invalid_kinds_fail_before_search_witness :
    applyFindSymbol (fun _ _ _ _ _ => []) "pat" "src" [0] [] false
      = Except.error PyErr.valueError ∧
    applyFindReferencingSymbols (fun _ _ _ _ => []) (fun _ _ _ _ => "") "np" "src" [0] []
      = Except.error PyErr.valueError :=
  invalid_kinds_fail_before_search (fun _ _ _ _ _ => []) (fun _ _ _ _ => [])
    (fun _ _ _ _ => "") "pat" "np" "src" false [0] []
    ⟨0, by simp, by decide⟩

/-- **C7** (confirmed).  Get-overview raises `FileNotFoundError` (NotFound)
for every path that does not exist — whatever `os.path.isdir` would say —
and `ValueError` (InvalidArgument) for every existing directory path; only
an existing file path proceeds to the symbol-retrieval call, whose indexed
result it returns. -/
theorem overview_error_handling
    (getSymbolOverview : String → List (String × PyVal)) (relativePath : String) :
    (∀ isDir, applyGetSymbolsOverview false isDir getSymbolOverview relativePath =
        Except.error PyErr.fileNotFoundError) ∧
    applyGetSymbolsOverview true true getSymbolOverview relativePath =
      Except.error PyErr.valueError ∧
    (∀ kv, (getSymbolOverview relativePath).find? (fun p => p.1 == relativePath) = some kv →
        applyGetSymbolsOverview true false getSymbolOverview relativePath = Except.ok kv.2) := by
  refine ⟨fun isDir => rfl, rfl, fun kv hkv => ?_⟩
  unfold applyGetSymbolsOverview
  rw [hkv]
  rfl

/-- Witness for `overview_error_handling` at a concrete one-file project. -/
theorem overview_error_handling_witness :
    applyGetSymbolsOverview false false (fun _ => [("f.py", PyVal.list [])]) "f.py" =
      Except.error PyErr.fileNotFoundError ∧
    applyGetSymbolsOverview true true (fun _ => [("f.py", PyVal.list [])]) "f.py" =
      Except.error PyErr.valueError ∧
    applyGetSymbolsOverview true false (fun _ => [("f.py", PyVal.list [])]) "f.py" =
      Except.ok (PyVal.list []) :=
  ⟨(overview_error_handling (fun _ => [("f.py", PyVal.list [])]) "f.py").1 false,
   (overview_error_handling (fun _ => [("f.py", PyVal.list [])]) "f.py").2.1,
   (overview_error_handling (fun _ => [("f.py", PyVal.list [])]) "f.py").2.2
     ("f.py", PyVal.list []) rfl⟩

theorem dictHas_dictSet_self (d : PyDict) (k : String) (v : PyVal) :
    dictHas (dictSet d k v) k = true := by
  unfold dictSet dictHas
  by_cases hc : d.any (fun kv => kv.1 == k)
  · rw [if_pos hc]
    induction d with
    | nil => simp at hc
    | cons a as ih =>
      simp only [List.map, List.any_cons, Bool.or_eq_true]
      by_cases ha : (a.1 == k) = true
      · left
        rw [if_pos ha]
        simp
      · simp only [List.any_cons, Bool.or_eq_true] at hc
        rcases hc with hc1 | hc2
        · exact absurd hc1 ha
        · right
          exact ih hc2
  · rw [if_neg hc]
    rw [List.any_append]
    simp

theorem sanitize_toDict_ok (s : RSymbol) :
    ∃ d', sanitizeSymbolDict (RSymbol.toDict s) = Except.ok d' := by
  obtain ⟨nm, np, k, r, rp⟩ := s
  cases rp with
  | none => exact ⟨_, rfl⟩
  | some p => exact ⟨_, rfl⟩

theorem referenceEntry_ok (retrieve : PyVal → PyVal → Nat → Nat → String)
    (ref : SymbolReference) (h : ref.symbol.relativePath ≠ Option.none) :
    ∃ d, referenceEntry retrieve ref = Except.ok d ∧
      dictHas d "content_around_reference" = true := by
  cases hrp : ref.symbol.relativePath with
  | none => exact absurd hrp h
  | some rp =>
    obtain ⟨d0, hd0⟩ := sanitize_toDict_ok ref.symbol
    unfold referenceEntry
    rw [hd0]
    simp only [bind, Except.bind]
    rw [hrp]
    exact ⟨_, rfl, dictHas_dictSet_self _ _ _⟩

theorem referenceEntry_err (retrieve : PyVal → PyVal → Nat → Nat → String)
    (ref : SymbolReference) (h : ref.symbol.relativePath = Option.none) :
    referenceEntry retrieve ref = Except.error PyErr.assertionError := by
  obtain ⟨d0, hd0⟩ := sanitize_toDict_ok ref.symbol
  unfold referenceEntry
  rw [hd0]
  simp only [bind, Except.bind]
  rw [h]

theorem mapM_referenceEntry_ok (retrieve : PyVal → PyVal → Nat → Nat → String)
    (refs : List SymbolReference)
    (h : ∀ r ∈ refs, r.symbol.relativePath ≠ Option.none) :
    ∃ ds, refs.mapM (referenceEntry retrieve) = Except.ok ds ∧
      ∀ d ∈ ds, dictHas d "content_around_reference" = true := by
  induction refs with
  | nil => exact ⟨[], rfl, by simp⟩
  | cons a as ih =>
    obtain ⟨d, hd, hhas⟩ := referenceEntry_ok retrieve a (h a (List.mem_cons_self a as))
    obtain ⟨ds, hds, hall⟩ := ih (fun r hr => h r (List.mem_cons_of_mem a hr))
    refine ⟨d :: ds, ?_, ?_⟩
    · rw [List.mapM_cons, hd, hds]
      rfl
    · intro x hx
      cases hx with
      | head => exact hhas
      | tail _ h2 => exact hall x h2

theorem mapM_referenceEntry_err (retrieve : PyVal → PyVal → Nat → Nat → String)
    (refs : List SymbolReference)
    (h : ∃ r ∈ refs, r.symbol.relativePath = Option.none) :
    refs.mapM (referenceEntry retrieve) = Except.error PyErr.assertionError := by
  induction refs with
  | nil => obtain ⟨r, hr, _⟩ := h; cases hr
  | cons a as ih =>
    by_cases ha : a.symbol.relativePath = Option.none
    · rw [List.mapM_cons, referenceEntry_err retrieve a ha]
      rfl
    · have h' : ∃ r ∈ as, r.symbol.relativePath = Option.none := by
        obtain ⟨r, hr, hnone⟩ := h
        cases hr with
        | head => exact absurd hnone ha
        | tail _ h2 => exact ⟨r, h2, hnone⟩
      obtain ⟨d, hd, _⟩ := referenceEntry_ok retrieve a ha
      rw [List.mapM_cons, hd, ih h']
      rfl

/-- **C8** (confirmed).  In find-referencing-symbols, if any returned
reference's symbol location carries no resolvable relative file path, the
operation raises `AssertionError` (the surfaced internal invariant
violation of line 234); under the precondition that every referencing
symbol has a relative path, that failure branch is unreachable, the
operation succeeds, and a 1-line-context snippet
(`content_around_reference`) is attached to every reference. -/
theorem references_missing_path_asserts
    (findReferencingSymbols : String → String → Option (List Int) → Option (List Int) → List SymbolReference)
    (retrieve : PyVal → PyVal → Nat → Nat → String)
    (namePath relativePath : String) (includeKinds excludeKinds : List Int)
    (pinc pexc : Option (List Int))
    (hinc : parseKinds includeKinds = Except.ok pinc)
    (hexc : parseKinds excludeKinds = Except.ok pexc) :
    ((∃ r ∈ findReferencingSymbols namePath relativePath pinc pexc,
        r.symbol.relativePath = Option.none) →
      applyFindReferencingSymbols findReferencingSymbols retrieve namePath relativePath
        includeKinds excludeKinds = Except.error PyErr.assertionError) ∧
    ((∀ r ∈ findReferencingSymbols namePath relativePath pinc pexc,
        r.symbol.relativePath ≠ Option.none) →
      ∃ ds, applyFindReferencingSymbols findReferencingSymbols retrieve namePath relativePath
          includeKinds excludeKinds = Except.ok ds ∧
        ∀ d ∈ ds, dictHas d "content_around_reference" = true) := by
  constructor
  · intro hex
    unfold applyFindReferencingSymbols
    rw [hinc, hexc]
    simp only [bind, Except.bind]
    exact mapM_referenceEntry_err retrieve _ hex
  · intro hall
    unfold applyFindReferencingSymbols
    rw [hinc, hexc]
    simp only [bind, Except.bind]
    exact mapM_referenceEntry_ok retrieve _ hall

/-- Witness for `references_missing_path_asserts`: one collaborator whose
single reference lacks a relative path (assertion fires), and one whose
single reference has a path (snippet attached). -/
theorem references_missing_path_asserts_witness :
    applyFindReferencingSymbols
        (fun _ _ _ _ => [⟨⟨"r", ["r"], 12, ⟨0, 0, 0, 1⟩, Option.none⟩, 3⟩])
        (fun _ _ _ _ => "ctx") "np" "a.py" [] [] = Except.error PyErr.assertionError ∧
    ∃ ds, applyFindReferencingSymbols
        (fun _ _ _ _ => [⟨⟨"r", ["r"], 12, ⟨0, 0, 0, 1⟩, some "b.py"⟩, 3⟩])
        (fun _ _ _ _ => "ctx") "np" "a.py" [] [] = Except.ok ds ∧
      ∀ d ∈ ds, dictHas d "content_around_reference" = true :=
  ⟨(references_missing_path_asserts
      (fun _ _ _ _ => [⟨⟨"r", ["r"], 12, ⟨0, 0, 0, 1⟩, Option.none⟩, 3⟩])
      (fun _ _ _ _ => "ctx") "np" "a.py" [] [] Option.none Option.none rfl rfl).1
      ⟨⟨⟨"r", ["r"], 12, ⟨0, 0, 0, 1⟩, Option.none⟩, 3⟩, by simp, rfl⟩,
   (references_missing_path_asserts
      (fun _ _ _ _ => [⟨⟨"r", ["r"], 12, ⟨0, 0, 0, 1⟩, some "b.py"⟩, 3⟩])
      (fun _ _ _ _ => "ctx") "np" "a.py" [] [] Option.none Option.none rfl rfl).2
      (by intro r hr; simp at hr; subst hr; simp)⟩

/-- The text contributed to the hover output by a well-formed hover-list
entry: a plain string as itself, a mapping as its string-valued `value`
field. -/
def hoverListItemText : PyVal → String
  | .str s => s
  | .dict kvs =>
    match dictGetD kvs "value" PyVal.none with
    | .str s => s
    | _ => ""
  | _ => ""

theorem hoverFold_eq (pstr : PyVal → String) (entries : List PyVal) (acc : List PyVal)
    (h : ∀ e ∈ entries, (∃ s, e = PyVal.str s) ∨
      (∃ kvs s, e = PyVal.dict kvs ∧ dictGetD kvs "value" PyVal.none = PyVal.str s)) :
    entries.foldl (fun acc part =>
      match part with
      | .str s => acc ++ [PyVal.str s]
      | .dict kvs => acc ++ [dictGetD kvs "value" (PyVal.str (pstr (PyVal.dict kvs)))]
      | _ => acc) acc = acc ++ entries.map (fun e => PyVal.str (hoverListItemText e)) := by
  induction entries generalizing acc with
  | nil => simp
  | cons e es ih =>
    have hes : ∀ x ∈ es, (∃ s, x = PyVal.str s) ∨
        (∃ kvs s, x = PyVal.dict kvs ∧ dictGetD kvs "value" PyVal.none = PyVal.str s) :=
      fun x hx => h x (List.mem_cons_of_mem e hx)
    rcases h e (List.mem_cons_self e es) with ⟨s, rfl⟩ | ⟨kvs, s, rfl, hv⟩
    · rw [List.foldl_cons, ih _ hes]
      simp [hoverListItemText]
    · rw [List.foldl_cons]
      dsimp only
      have hval : dictGetD kvs "value" (PyVal.str (pstr (PyVal.dict kvs))) = PyVal.str s := by
        rw [dictGetD_eq_of_has (dictHas_of_getD_ne_default hv (by simp)) _ PyVal.none, hv]
      have htext : hoverListItemText (PyVal.dict kvs) = s := by
        unfold hoverListItemText
        dsimp only
        rw [hv]
      rw [hval, ih _ hes]
      simp [htext]

theorem mapM_extract_str (texts : List String) :
    (texts.map (fun t => PyVal.str t)).mapM
      (fun p => match p with | PyVal.str s => some s | _ => Option.none) = some texts := by
  induction texts with
  | nil => rfl
  | cons t ts ih =>
    rw [List.map_cons, List.mapM_cons, ih]
    rfl

theorem pyJoin_map_str (sep : String) (texts : List String) :
    pyJoin sep (texts.map (fun t => PyVal.str t)) =
      Except.ok (PyVal.str (String.intercalate sep texts)) := by
  unfold pyJoin
  rw [mapM_extract_str]

/-- **C5** (corrected; amended claim).  Hover normalization: a null hover
result yields the no-information message; a *falsy* `contents` value
(missing, `None`, the empty string, an empty list/dict, `0`, `False`)
yields the no-content message rather than being returned as-is; a
*non-empty* plain string is returned as-is; a non-empty mapping is
returned as its `value` field when that key is present; a non-empty list
of string/mapping entries (mappings carrying a string `value`) is joined
into one string with a blank line between entries. -/
theorem hover_normalization (pstr : PyVal → String) :
    (applyGetHoverInfo pstr Option.none =
      Except.ok (PyVal.str "No hover information available.")) ∧
    (∀ r : PyDict, pyTruthy (dictGetD r "contents" PyVal.none) = false →
      applyGetHoverInfo pstr (some r) =
        Except.ok (PyVal.str "No content in hover result.")) ∧
    (∀ (r : PyDict) (s : String), dictGetD r "contents" PyVal.none = PyVal.str s →
      s ≠ "" → applyGetHoverInfo pstr (some r) = Except.ok (PyVal.str s)) ∧
    (∀ (r : PyDict) (kvs : PyDict), dictGetD r "contents" PyVal.none = PyVal.dict kvs →
      kvs ≠ [] → dictHas kvs "value" = true →
      applyGetHoverInfo pstr (some r) = Except.ok (dictGetD kvs "value" PyVal.none)) ∧
    (∀ (r : PyDict) (entries : List PyVal),
      dictGetD r "contents" PyVal.none = PyVal.list entries → entries ≠ [] →
      (∀ e ∈ entries, (∃ s, e = PyVal.str s) ∨
        (∃ kvs s, e = PyVal.dict kvs ∧ dictGetD kvs "value" PyVal.none = PyVal.str s)) →
      applyGetHoverInfo pstr (some r) = Except.ok (PyVal.str
        (String.intercalate "\n\n" (entries.map hoverListItemText)))) := by
  refine ⟨rfl, ?_, ?_, ?_, ?_⟩
  · intro r h
    unfold applyGetHoverInfo
    dsimp only
    rw [h]
    rfl
  · intro r s hc hs
    unfold applyGetHoverInfo
    dsimp only
    rw [hc]
    have : pyTruthy (PyVal.str s) = true := by
      unfold pyTruthy
      simp only [Bool.not_eq_true']
      exact (Bool.not_eq_true _).mp (fun hse => hs ((String.isEmpty_iff s).mp hse))
    rw [this]
    rfl
  · intro r kvs hc hne hval
    unfold applyGetHoverInfo
    dsimp only
    rw [hc]
    have : pyTruthy (PyVal.dict kvs) = true := by
      unfold pyTruthy
      simpa using hne
    rw [this]
    simp only [Bool.not_true, Bool.false_eq_true, if_neg, not_false_eq_true]
    rw [dictGetD_eq_of_has hval _ PyVal.none]
  · intro r entries hc hne hsh
    unfold applyGetHoverInfo
    dsimp only
    rw [hc]
    have : pyTruthy (PyVal.list entries) = true := by
      unfold pyTruthy
      simpa using hne
    rw [this]
    simp only [Bool.not_true, Bool.false_eq_true, if_neg, not_false_eq_true]
    rw [hoverFold_eq pstr entries [] hsh]
    rw [List.nil_append]
    have hmap : entries.map (fun e => PyVal.str (hoverListItemText e)) =
        (entries.map hoverListItemText).map (fun t => PyVal.str t) := by
      rw [List.map_map]
      rfl
    rw [hmap, pyJoin_map_str]

/-- **C5** (counterexample).  A hover result whose `contents` is the plain
(empty) string `""` is not returned as-is: the code's falsiness check
returns the no-content message instead. -/
theorem hover_plain_string_counterexample :
    applyGetHoverInfo (fun _ => "") (some [("contents", PyVal.str "")]) =
      Except.ok (PyVal.str "No content in hover result.") := rfl

/-- Witness for `hover_normalization` at concrete hover payloads. -/
theorem hover_normalization_witness :
    applyGetHoverInfo (fun _ => "") (some [("contents", PyVal.str "x")]) =
      Except.ok (PyVal.str "x") ∧
    applyGetHoverInfo (fun _ => "")
        (some [("contents", PyVal.list [PyVal.str "a", PyVal.dict [("value", PyVal.str "b")]])]) =
      Except.ok (PyVal.str "a\n\nb") :=
  ⟨(hover_normalization (fun _ => "")).2.2.1 [("contents", PyVal.str "x")] "x" rfl
      (by decide),
   (hover_normalization (fun _ => "")).2.2.2.2
      [("contents", PyVal.list [PyVal.str "a", PyVal.dict [("value", PyVal.str "b")]])]
      [PyVal.str "a", PyVal.dict [("value", PyVal.str "b")]] rfl (List.cons_ne_nil _ _)
      (by
        intro e he
        cases he with
        | head => exact Or.inl ⟨"a", rfl⟩
        | tail _ he2 =>
          cases he2 with
          | head => exact Or.inr ⟨[("value", PyVal.str "b")], "b", rfl, rfl⟩
          | tail _ he3 => cases he3)⟩

theorem serializeKindStep_preserves (d : PyDict) (k : String) (hk : k ≠ "kind") :
    dictGetD (serializeKindStep d) k PyVal.none = dictGetD d k PyVal.none ∧
      dictHas (serializeKindStep d) k = dictHas d k := by
  unfold serializeKindStep
  cases dictGetD d "kind" PyVal.none with
  | symbolKind n =>
    exact ⟨dictGetD_dictSet_ne _ _ _ hk, dictHas_dictSet_ne _ _ hk⟩
  | int n =>
    dsimp only
    by_cases hr : 1 ≤ n ∧ n ≤ 26
    · rw [if_pos hr]
      exact ⟨dictGetD_dictSet_ne _ _ _ hk, dictHas_dictSet_ne _ _ hk⟩
    · rw [if_neg hr]
      exact ⟨dictGetD_dictSet_ne _ _ _ hk, dictHas_dictSet_ne _ _ hk⟩
  | bool b =>
    dsimp only
    cases b
    · rw [if_neg (by simp)]
      exact ⟨dictGetD_dictSet_ne _ _ _ hk, dictHas_dictSet_ne _ _ hk⟩
    · rw [if_pos rfl]
      exact ⟨dictGetD_dictSet_ne _ _ _ hk, dictHas_dictSet_ne _ _ hk⟩
  | none => exact ⟨rfl, rfl⟩
  | str s => exact ⟨rfl, rfl⟩
  | list xs => exact ⟨rfl, rfl⟩
  | dict kvs => exact ⟨rfl, rfl⟩

theorem serializeRangeStep_preserves {d d2 : PyDict}
    (h : serializeRangeStep d = Except.ok d2) (k : String) (hk : k ≠ "range") :
    dictGetD d2 k PyVal.none = dictGetD d k PyVal.none ∧
      dictHas d2 k = dictHas d k := by
  unfold serializeRangeStep at h
  simp only [bind, Except.bind] at h
  by_cases ht : pyTruthy (dictGetD d "range" PyVal.none) = true
  · rw [if_pos ht] at h
    cases hfr : formatRange (dictGetD d "range" PyVal.none) with
    | error e => rw [hfr] at h; cases h
    | ok fr =>
      rw [hfr] at h
      dsimp only at h
      cases h
      exact ⟨dictGetD_dictSet_ne _ _ _ hk, dictHas_dictSet_ne _ _ hk⟩
  · rw [if_neg ht] at h
    cases h
    exact ⟨rfl, rfl⟩

theorem serializeLocationStep_preserves {pstr : PyVal → String} {d d2 : PyDict}
    (h : serializeLocationStep pstr d = Except.ok d2) (k : String) (hk : k ≠ "location") :
    dictGetD d2 k PyVal.none = dictGetD d k PyVal.none ∧
      dictHas d2 k = dictHas d k := by
  unfold serializeLocationStep at h
  by_cases hn : (dictGetD d "location" PyVal.none).isNone = true
  · rw [if_pos hn] at h
    cases h
    exact ⟨rfl, rfl⟩
  · rw [if_neg hn] at h
    simp only [bind, Except.bind] at h
    cases hld : pyDictOf (dictGetD d "location" PyVal.none) with
    | error e => rw [hld] at h; cases h
    | ok locDict =>
      rw [hld] at h
      dsimp only at h
      by_cases hpr : (pyTruthy
          (if (!pyTruthy (dictGetD locDict "relativePath" PyVal.none)) = true then
            dictGetD locDict "uri" PyVal.none
          else dictGetD locDict "relativePath" PyVal.none) &&
          pyTruthy (dictGetD locDict "range" PyVal.none)) = true
      · rw [if_pos hpr] at h
        cases hfr : formatRange (dictGetD locDict "range" PyVal.none) with
        | error e => rw [hfr] at h; cases h
        | ok fr =>
          rw [hfr] at h
          dsimp only at h
          cases h
          exact ⟨dictGetD_dictSet_ne _ _ _ hk, dictHas_dictSet_ne _ _ hk⟩
      · rw [if_neg hpr] at h
        cases h
        exact ⟨dictGetD_dictSet_ne _ _ _ hk, dictHas_dictSet_ne _ _ hk⟩

theorem serializeBodyStep_preserves (dedent : String → String) (d : PyDict)
    (k : String) (hk : k ≠ "body") :
    dictGetD (serializeBodyStep dedent d) k PyVal.none = dictGetD d k PyVal.none ∧
      dictHas (serializeBodyStep dedent d) k = dictHas d k := by
  unfold serializeBodyStep
  cases dictGetD d "body" PyVal.none with
  | str b =>
    dsimp only
    cases pySplitlines b with
    | nil => exact ⟨rfl, rfl⟩
    | cons f rest =>
      dsimp only
      by_cases hr : rest.length > 0
      · rw [if_pos hr]
        exact ⟨dictGetD_dictSet_ne _ _ _ hk, dictHas_dictSet_ne _ _ hk⟩
      · rw [if_neg hr]
        exact ⟨dictGetD_dictSet_ne _ _ _ hk, dictHas_dictSet_ne _ _ hk⟩
  | none => exact ⟨rfl, rfl⟩
  | bool b => exact ⟨rfl, rfl⟩
  | int n => exact ⟨rfl, rfl⟩
  | symbolKind n => exact ⟨rfl, rfl⟩
  | list xs => exact ⟨rfl, rfl⟩
  | dict kvs => exact ⟨rfl, rfl⟩

theorem serializeSymbolTail_shape {pstr : PyVal → String} {dedent : String → String}
    {s : PyDict} {v' : PyVal} (h : serializeSymbolTail pstr dedent s = Except.ok v') :
    ∃ d', v' = PyVal.dict d' ∧ ∀ k, k ≠ "range" → k ≠ "location" → k ≠ "body" →
      dictGetD d' k PyVal.none = dictGetD s k PyVal.none ∧
        dictHas d' k = dictHas s k := by
  unfold serializeSymbolTail at h
  simp only [bind, Except.bind] at h
  cases h1 : serializeRangeStep s with
  | error e => rw [h1] at h; cases h
  | ok s1 =>
    rw [h1] at h
    dsimp only at h
    cases h2 : serializeLocationStep pstr s1 with
    | error e => rw [h2] at h; cases h
    | ok s2 =>
      rw [h2] at h
      dsimp only at h
      cases h
      refine ⟨serializeBodyStep dedent s2, rfl, fun k hk1 hk2 hk3 => ?_⟩
      have p1 := serializeRangeStep_preserves h1 k hk1
      have p2 := serializeLocationStep_preserves h2 k hk2
      have p3 := serializeBodyStep_preserves dedent s2 k hk3
      exact ⟨p3.1.trans (p2.1.trans p1.1), p3.2.trans (p2.2.trans p1.2)⟩

theorem dictPop_chain_preserves (kvs : PyDict) (k : String)
    (h1 : k ≠ "parent") (h2 : k ≠ "glyph") (h3 : k ≠ "selectionRange") :
    dictGetD (dictPop (dictPop (dictPop kvs "parent") "glyph") "selectionRange") k PyVal.none =
        dictGetD kvs k PyVal.none ∧
      dictHas (dictPop (dictPop (dictPop kvs "parent") "glyph") "selectionRange") k =
        dictHas kvs k := by
  constructor
  · rw [dictGetD_dictPop_ne _ _ h3, dictGetD_dictPop_ne _ _ h2, dictGetD_dictPop_ne _ _ h1]
  · rw [dictHas_dictPop_ne _ h3, dictHas_dictPop_ne _ h2, dictHas_dictPop_ne _ h1]

theorem serializeSymbol_ok_shape {pstr : PyVal → String} {dedent : String → String}
    {kvs : PyDict} {v' : PyVal}
    (h : serializeSymbol pstr dedent (PyVal.dict kvs) = Except.ok v') :
    ∃ d', v' = PyVal.dict d' ∧
      dictHas d' "parent" = false ∧ dictHas d' "glyph" = false ∧
      dictHas d' "selectionRange" = false ∧
      dictGetD d' "name" PyVal.none = dictGetD kvs "name" PyVal.none ∧
      dictHas d' "name" = dictHas kvs "name" := by
  simp only [serializeSymbol] at h
  have hpops : ∀ k, k ≠ "parent" → k ≠ "glyph" → k ≠ "selectionRange" → k ≠ "kind" →
      dictGetD (serializeKindStep (dictPop (dictPop (dictPop kvs "parent") "glyph") "selectionRange")) k PyVal.none =
          dictGetD kvs k PyVal.none ∧
        dictHas (serializeKindStep (dictPop (dictPop (dictPop kvs "parent") "glyph") "selectionRange")) k =
          dictHas kvs k := by
    intro k hk1 hk2 hk3 hk4
    have p1 := dictPop_chain_preserves kvs k hk1 hk2 hk3
    have p2 := serializeKindStep_preserves
      (dictPop (dictPop (dictPop kvs "parent") "glyph") "selectionRange") k hk4
    exact ⟨p2.1.trans p1.1, p2.2.trans p1.2⟩
  have hgone : ∀ k, k = "parent" ∨ k = "glyph" ∨ k = "selectionRange" → k ≠ "kind" →
      dictHas (serializeKindStep (dictPop (dictPop (dictPop kvs "parent") "glyph") "selectionRange")) k = false := by
    intro k hk hk4
    have p2 := serializeKindStep_preserves
      (dictPop (dictPop (dictPop kvs "parent") "glyph") "selectionRange") k hk4
    rw [p2.2]
    rcases hk with rfl | rfl | rfl
    · rw [dictHas_dictPop_ne _ (by decide : ("parent" : String) ≠ "selectionRange"),
          dictHas_dictPop_ne _ (by decide : ("parent" : String) ≠ "glyph")]
      exact dictHas_dictPop_self _ _
    · rw [dictHas_dictPop_ne _ (by decide : ("glyph" : String) ≠ "selectionRange")]
      exact dictHas_dictPop_self _ _
    · exact dictHas_dictPop_self _ _
  split at h
  · -- children is a list: the recursive serialization runs first
    rename_i children hch
    simp only [bind, Except.bind] at h
    cases hm : mapMemM children fun child x => serializeSymbol pstr dedent child with
    | error e => rw [hm] at h; cases h
    | ok children' =>
      rw [hm] at h
      dsimp only at h
      obtain ⟨d', hv, hpres⟩ := serializeSymbolTail_shape h
      refine ⟨d', hv, ?_, ?_, ?_, ?_, ?_⟩
      · rw [(hpres "parent" (by decide) (by decide) (by decide)).2,
            dictHas_dictSet_ne _ _ (by decide : ("parent" : String) ≠ "children")]
        exact hgone "parent" (Or.inl rfl) (by decide)
      · rw [(hpres "glyph" (by decide) (by decide) (by decide)).2,
            dictHas_dictSet_ne _ _ (by decide : ("glyph" : String) ≠ "children")]
        exact hgone "glyph" (Or.inr (Or.inl rfl)) (by decide)
      · rw [(hpres "selectionRange" (by decide) (by decide) (by decide)).2,
            dictHas_dictSet_ne _ _ (by decide : ("selectionRange" : String) ≠ "children")]
        exact hgone "selectionRange" (Or.inr (Or.inr rfl)) (by decide)
      · rw [(hpres "name" (by decide) (by decide) (by decide)).1,
            dictGetD_dictSet_ne _ _ _ (by decide : ("name" : String) ≠ "children")]
        exact (hpops "name" (by decide) (by decide) (by decide) (by decide)).1
      · rw [(hpres "name" (by decide) (by decide) (by decide)).2,
            dictHas_dictSet_ne _ _ (by decide : ("name" : String) ≠ "children")]
        exact (hpops "name" (by decide) (by decide) (by decide) (by decide)).2
  · -- children absent or not a list
    obtain ⟨d', hv, hpres⟩ := serializeSymbolTail_shape h
    refine ⟨d', hv, ?_, ?_, ?_, ?_, ?_⟩
    · rw [(hpres "parent" (by decide) (by decide) (by decide)).2]
      exact hgone "parent" (Or.inl rfl) (by decide)
    · rw [(hpres "glyph" (by decide) (by decide) (by decide)).2]
      exact hgone "glyph" (Or.inr (Or.inl rfl)) (by decide)
    · rw [(hpres "selectionRange" (by decide) (by decide) (by decide)).2]
      exact hgone "selectionRange" (Or.inr (Or.inr rfl)) (by decide)
    · rw [(hpres "name" (by decide) (by decide) (by decide)).1]
      exact (hpops "name" (by decide) (by decide) (by decide) (by decide)).1
    · rw [(hpres "name" (by decide) (by decide) (by decide)).2]
      exact (hpops "name" (by decide) (by decide) (by decide) (by decide)).2

/-- **C1** (corrected; amended claim).  Sanitization is *not* uniform
across the query operations.  Find-symbol and find-referencing-symbols
use `_sanitize_symbol_dict`, which removes `name` and the raw `location`
(collapsed to its relative path) but leaves `parent`, `glyph` and
`selection_range`/`selectionRange` keys untouched; get-defining-symbol
uses `_serialize_symbol`, which removes `parent`, `glyph` and
`selectionRange` but keeps `name` (value unchanged). -/
theorem sanitization_not_uniform :
    (∀ d d', sanitizeSymbolDict d = Except.ok d' →
      dictHas d' "name" = false ∧ dictHas d' "location" = false ∧
      dictGetD d' "parent" PyVal.none = dictGetD d "parent" PyVal.none ∧
      dictHas d' "parent" = dictHas d "parent" ∧
      dictGetD d' "glyph" PyVal.none = dictGetD d "glyph" PyVal.none ∧
      dictHas d' "glyph" = dictHas d "glyph" ∧
      dictGetD d' "selection_range" PyVal.none = dictGetD d "selection_range" PyVal.none ∧
      dictHas d' "selection_range" = dictHas d "selection_range") ∧
    (∀ pstr dedent kvs v', serializeSymbol pstr dedent (PyVal.dict kvs) = Except.ok v' →
      ∃ d', v' = PyVal.dict d' ∧
        dictHas d' "parent" = false ∧ dictHas d' "glyph" = false ∧
        dictHas d' "selectionRange" = false ∧
        dictGetD d' "name" PyVal.none = dictGetD kvs "name" PyVal.none ∧
        dictHas d' "name" = dictHas kvs "name") := by
  constructor
  · intro d d' h
    obtain ⟨d2, hloc2, hkey, hcase⟩ := sanitize_ok_shape h
    have hstep : ∀ k, k ≠ "range" → k ≠ "name" →
        dictGetD d' k PyVal.none = dictGetD d2 k PyVal.none ∧
          dictHas d' k = dictHas d2 k := by
      intro k hk1 hk2
      rcases hcase with ⟨fr, rfl⟩ | ⟨_, rfl⟩
      · exact ⟨by rw [dictGetD_dictPop_ne _ _ hk2, dictGetD_dictSet_ne _ _ _ hk1],
               by rw [dictHas_dictPop_ne _ hk2, dictHas_dictSet_ne _ _ hk1]⟩
      · exact ⟨dictGetD_dictPop_ne _ _ hk2, dictHas_dictPop_ne _ hk2⟩
    have hname' : dictHas d' "name" = false := by
      rcases hcase with ⟨fr, rfl⟩ | ⟨_, rfl⟩
      · exact dictHas_dictPop_self _ _
      · exact dictHas_dictPop_self _ _
    have hloc' : dictHas d' "location" = false := by
      rw [(hstep "location" (by decide) (by decide)).2]
      exact hloc2
    have hthrough : ∀ k, k ≠ "range" → k ≠ "name" → k ≠ "location" → k ≠ "relative_path" →
        dictGetD d' k PyVal.none = dictGetD d k PyVal.none ∧
          dictHas d' k = dictHas d k := by
      intro k hk1 hk2 hk3 hk4
      have p1 := hstep k hk1 hk2
      have p2 := hkey k hk3 hk4
      exact ⟨p1.1.trans p2.1, p1.2.trans p2.2⟩
    refine ⟨hname', hloc', ?_, ?_, ?_, ?_, ?_, ?_⟩
    · exact (hthrough "parent" (by decide) (by decide) (by decide) (by decide)).1
    · exact (hthrough "parent" (by decide) (by decide) (by decide) (by decide)).2
    · exact (hthrough "glyph" (by decide) (by decide) (by decide) (by decide)).1
    · exact (hthrough "glyph" (by decide) (by decide) (by decide) (by decide)).2
    · exact (hthrough "selection_range" (by decide) (by decide) (by decide) (by decide)).1
    · exact (hthrough "selection_range" (by decide) (by decide) (by decide) (by decide)).2
  · intro pstr dedent kvs v' h
    exact serializeSymbol_ok_shape h

/-- **C1** (counterexample).  On the concrete symbol dictionary
`{"name": "f", "parent": "p"}`, `_sanitize_symbol_dict` (used by
find-symbol and find-referencing-symbols) removes `name` but keeps
`parent`, whereas `_serialize_symbol` (used by get-defining-symbol)
removes `parent` but keeps `name` — so no single sanitized form with
`name`, `parent`, `glyph` and `selection_range` all removed is produced
uniformly by the three operations. -/
theorem sanitization_uniformity_counterexample :
    sanitizeSymbolDict [("name", PyVal.str "f"), ("parent", PyVal.str "p")] =
      Except.ok [("parent", PyVal.str "p")] ∧
    serializeSymbol (fun _ => "") (fun s => s)
        (PyVal.dict [("name", PyVal.str "f"), ("parent", PyVal.str "p")]) =
      Except.ok (PyVal.dict [("name", PyVal.str "f")]) := by
  constructor
  · rfl
  · simp only [serializeSymbol]
    rfl

/-- Witness for `sanitization_not_uniform` at the dictionary
`{"name": "f", "parent": "p"}`. -/
theorem sanitization_not_uniform_witness :
    (dictHas [("parent", PyVal.str "p")] "name" = false ∧
     dictHas [("parent", PyVal.str "p")] "location" = false ∧
     dictGetD [("parent", PyVal.str "p")] "parent" PyVal.none =
       dictGetD [("name", PyVal.str "f"), ("parent", PyVal.str "p")] "parent" PyVal.none ∧
     dictHas [("parent", PyVal.str "p")] "parent" =
       dictHas [("name", PyVal.str "f"), ("parent", PyVal.str "p")] "parent" ∧
     dictGetD [("parent", PyVal.str "p")] "glyph" PyVal.none =
       dictGetD [("name", PyVal.str "f"), ("parent", PyVal.str "p")] "glyph" PyVal.none ∧
     dictHas [("parent", PyVal.str "p")] "glyph" =
       dictHas [("name", PyVal.str "f"), ("parent", PyVal.str "p")] "glyph" ∧
     dictGetD [("parent", PyVal.str "p")] "selection_range" PyVal.none =
       dictGetD [("name", PyVal.str "f"), ("parent", PyVal.str "p")] "selection_range" PyVal.none ∧
     dictHas [("parent", PyVal.str "p")] "selection_range" =
       dictHas [("name", PyVal.str "f"), ("parent", PyVal.str "p")] "selection_range") ∧
    (∃ d', PyVal.dict [("name", PyVal.str "f")] = PyVal.dict d' ∧
      dictHas d' "parent" = false ∧ dictHas d' "glyph" = false ∧
      dictHas d' "selectionRange" = false ∧
      dictGetD d' "name" PyVal.none =
        dictGetD [("name", PyVal.str "f"), ("parent", PyVal.str "p")] "name" PyVal.none ∧
      dictHas d' "name" = dictHas [("name", PyVal.str "f"), ("parent", PyVal.str "p")] "name") :=
  ⟨sanitization_not_uniform.1 [("name", PyVal.str "f"), ("parent", PyVal.str "p")]
      [("parent", PyVal.str "p")] rfl,
   sanitization_not_uniform.2 (fun _ => "") (fun s => s)
      [("name", PyVal.str "f"), ("parent", PyVal.str "p")] (PyVal.dict [("name", PyVal.str "f")])
      (by simp only [serializeSymbol]; rfl)⟩

theorem truthy_ne_none {v : PyVal} (h : pyTruthy v = true) : v ≠ PyVal.none := by
  intro hh
  subst hh
  simp [pyTruthy] at h

theorem pySub_eq_getD {d : PyDict} {k : String} (h : dictGetD d k PyVal.none ≠ PyVal.none) :
    pySub (PyVal.dict d) k = Except.ok (dictGetD d k PyVal.none) := by
  unfold pySub
  unfold dictGetD at h ⊢
  cases hf : d.find? (fun kv => kv.1 == k) with
  | none => rw [hf] at h; exact absurd rfl h
  | some kv =>
    dsimp only
    rw [hf]

theorem entry_builders_pointwise (relpath : String → String)
    (retrieve : PyVal → PyVal → Nat → Nat → String) (r : PyDict)
    (h : ((!(dictGetD r "relativePath" PyVal.none).isNone) ||
          (!(dictGetD r "absolutePath" PyVal.none).isNone)) = true →
      pyTruthy (dictGetD r "range" PyVal.none) = true) :
    formatDefinitionEntry relpath retrieve r = formatReferenceEntry relpath retrieve r := by
  unfold formatDefinitionEntry formatReferenceEntry
  simp only [bind, Except.bind]
  by_cases hc : ((dictGetD r "relativePath" PyVal.none).isNone &&
      (!(dictGetD r "absolutePath" PyVal.none).isNone)) = true
  · rw [if_pos hc, if_pos hc]
    cases hA : dictGetD r "absolutePath" PyVal.none with
    | str s =>
      dsimp only
      have htr : pyTruthy (dictGetD r "range" PyVal.none) = true := by
        apply h
        rw [hA]
        simp [PyVal.isNone]
      have hrng : pySub (PyVal.dict r) "range" =
          Except.ok (dictGetD r "range" PyVal.none) :=
        pySub_eq_getD (truthy_ne_none htr)
      rw [hrng, htr]
      dsimp only [PyVal.isNone]
      rfl
    | none => rw [hA] at hc
    | bool b => rfl
    | int n => rfl
    | symbolKind n => rfl
    | list xs => rfl
    | dict kvs => rfl
  · rw [if_neg hc, if_neg hc]
    by_cases hP : (dictGetD r "relativePath" PyVal.none).isNone = true
    · rw [hP]
      rfl
    · have hP' : (dictGetD r "relativePath" PyVal.none).isNone = false :=
        Bool.not_eq_true _ ▸ hP
      rw [hP']
      have htr : pyTruthy (dictGetD r "range" PyVal.none) = true := by
        apply h
        rw [hP']
        rfl
      have hrng : pySub (PyVal.dict r) "range" =
          Except.ok (dictGetD r "range" PyVal.none) :=
        pySub_eq_getD (truthy_ne_none htr)
      rw [hrng, htr]
      rfl

/-- **C2** (corrected; amended claim).  The definition-entry and
reference-entry builders agree on every raw result in which each result
carrying a path source (a non-null `relativePath` or a non-null
`absolutePath`) also carries a truthy `range`; on such inputs they
produce equal entry lists and terminate identically.  (Without that
condition they diverge: the definition builder indexes
`definition["range"]` unconditionally once a path is resolved, while the
reference builder guards the snippet block on the range's truthiness.) -/
theorem entry_builders_agree_on_ranged_results (relpath : String → String)
    (retrieve : PyVal → PyVal → Nat → Nat → String) (results : List PyDict)
    (h : ∀ r ∈ results,
      ((!(dictGetD r "relativePath" PyVal.none).isNone) ||
       (!(dictGetD r "absolutePath" PyVal.none).isNone)) = true →
      pyTruthy (dictGetD r "range" PyVal.none) = true) :
    formatDefinitionEntries relpath retrieve results =
      formatReferenceEntries relpath retrieve results := by
  unfold formatDefinitionEntries formatReferenceEntries
  induction results with
  | nil => rfl
  | cons a as ih =>
    rw [List.mapM_cons, List.mapM_cons,
        entry_builders_pointwise relpath retrieve a (h a (List.mem_cons_self a as)),
        ih (fun r hr => h r (List.mem_cons_of_mem a hr))]

/-- **C2** (counterexample).  On the raw result `{"relativePath": "a.py"}`
(a resolvable path but no `range`), the definition-entry builder raises
`KeyError("range")` while the reference-entry builder terminates normally
with an entry — the two flows are not the same logic on all inputs. -/
theorem entry_builders_divergence_counterexample :
    formatDefinitionEntries (fun s => s) (fun _ _ _ _ => "snip")
        [[("relativePath", PyVal.str "a.py")]] =
      Except.error (PyErr.keyError "range") ∧
    formatReferenceEntries (fun s => s) (fun _ _ _ _ => "snip")
        [[("relativePath", PyVal.str "a.py")]] =
      Except.ok [[("relative_path", PyVal.str "a.py"), ("range", PyVal.none),
                  ("snippet", PyVal.none)]] :=
  ⟨rfl, rfl⟩

/-- Witness for `entry_builders_agree_on_ranged_results` at a raw result
with both a relative path and a range. -/
theorem entry_builders_agree_witness :
    formatDefinitionEntries (fun s => s) (fun _ _ _ _ => "snip")
        [[("relativePath", PyVal.str "a.py"),
          ("range", PyVal.dict
            [("start", PyVal.dict [("line", PyVal.int 0), ("character", PyVal.int 1)]),
             ("end", PyVal.dict [("line", PyVal.int 2), ("character", PyVal.int 3)])])]] =
      formatReferenceEntries (fun s => s) (fun _ _ _ _ => "snip")
        [[("relativePath", PyVal.str "a.py"),
          ("range", PyVal.dict
            [("start", PyVal.dict [("line", PyVal.int 0), ("character", PyVal.int 1)]),
             ("end", PyVal.dict [("line", PyVal.int 2), ("character", PyVal.int 3)])])]] :=
  entry_builders_agree_on_ranged_results (fun s => s) (fun _ _ _ _ => "snip") _
    (by
      intro r hr
      cases hr with
      | head => intro _; rfl
      | tail _ h2 => cases h2)

theorem isNone_iff {v : PyVal} : v.isNone = true ↔ v = PyVal.none := by
  cases v <;> simp [PyVal.isNone]

theorem cleanDict_getD_str {kvs : PyDict} {k : String} {s : String}
    (h : dictGetD kvs k PyVal.none = PyVal.str s) :
    dictGetD (cleanDict kvs) k PyVal.none = PyVal.str s := by
  induction kvs with
  | nil => simp [dictGetD, List.find?] at h
  | cons a as ih =>
    by_cases ha : (a.1 == k) = true
    · unfold dictGetD at h
      simp only [List.find?, ha] at h
      -- head is the first match; its value is the string s
      have hclean : cleanNoneAndEmpty a.2 = PyVal.str s := by
        rw [h]
        rfl
      unfold cleanDict
      rw [hclean]
      simp only [keepVal, if_pos]
      unfold dictGetD
      simp [List.find?, ha]
    · unfold dictGetD at h
      simp only [List.find?, ha] at h
      unfold cleanDict
      by_cases hk : keepVal (cleanNoneAndEmpty a.2) = true
      · rw [if_pos hk]
        unfold dictGetD at ih ⊢
        simp only [List.find?, ha]
        exact ih h
      · rw [if_neg hk]
        exact ih h
    
theorem mem_cleanList {w : PyVal} {xs : List PyVal} (h : w ∈ cleanList xs) :
    ∃ x ∈ xs, w = cleanNoneAndEmpty x := by
  induction xs with
  | nil => cases h
  | cons x xs ih =>
    unfold cleanList at h
    by_cases hk : keepVal (cleanNoneAndEmpty x) = true
    · rw [if_pos hk] at h
      cases h with
      | head => exact ⟨x, List.mem_cons_self x xs, rfl⟩
      | tail _ h2 =>
        obtain ⟨y, hy, hw⟩ := ih h2
        exact ⟨y, List.mem_cons_of_mem x hy, hw⟩
    · rw [if_neg hk] at h
      obtain ⟨y, hy, hw⟩ := ih h
      exact ⟨y, List.mem_cons_of_mem x hy, hw⟩

theorem mem_mapM_ok {α β : Type} {f : α → Except PyErr β} {xs : List α} {ys : List β}
    (h : xs.mapM f = Except.ok ys) : ∀ y ∈ ys, ∃ x ∈ xs, f x = Except.ok y := by
  induction xs generalizing ys with
  | nil =>
    rw [List.mapM_nil] at h
    cases h
    intro y hy
    cases hy
  | cons a as ih =>
    rw [List.mapM_cons] at h
    cases hfa : f a with
    | error e => rw [hfa] at h; cases h
    | ok b =>
      rw [hfa] at h
      cases hrest : as.mapM f with
      | error e => rw [hrest] at h; simp [bind, Except.bind] at h
      | ok bs =>
        rw [hrest] at h
        simp only [bind, Except.bind] at h
        cases h
        intro y hy
        cases hy with
        | head => exact ⟨a, List.mem_cons_self a as, hfa⟩
        | tail _ h2 =>
          obtain ⟨x, hx, hfx⟩ := ih hrest y h2
          exact ⟨x, List.mem_cons_of_mem a hx, hfx⟩

theorem bind2_ok_shape {X Y : Except PyErr PyVal} {g : PyVal → PyVal → PyDict} {e : PyDict}
    (h : (X >>= fun sn => Y >>= fun fr => Except.ok (g sn fr)) = Except.ok e) :
    ∃ sn fr, e = g sn fr := by
  cases X with
  | error ex => exact Except.noConfusion h
  | ok sn =>
    simp only [bind, Except.bind] at h
    cases Y with
    | error ey => exact Except.noConfusion h
    | ok fr =>
      cases h
      exact ⟨sn, fr, rfl⟩

theorem formatReferenceEntry_path_or_uri (relpath : String → String)
    (retrieve : PyVal → PyVal → Nat → Nat → String) {r e : PyDict}
    (h1 : dictGetD r "relativePath" PyVal.none = PyVal.none ∨
          ∃ s, dictGetD r "relativePath" PyVal.none = PyVal.str s)
    (h3 : dictGetD r "uri" PyVal.none = PyVal.none ∨
          ∃ s, dictGetD r "uri" PyVal.none = PyVal.str s)
    (h4 : ¬(dictGetD r "relativePath" PyVal.none = PyVal.none ∧
            dictGetD r "absolutePath" PyVal.none = PyVal.none ∧
            dictGetD r "uri" PyVal.none = PyVal.none))
    (h : formatReferenceEntry relpath retrieve r = Except.ok e) :
    (∃ s, dictGetD e "relative_path" PyVal.none = PyVal.str s) ∨
    (∃ s, dictGetD e "uri" PyVal.none = PyVal.str s) := by
  unfold formatReferenceEntry at h
  simp only [bind, Except.bind] at h
  by_cases hc : ((dictGetD r "relativePath" PyVal.none).isNone &&
      (!(dictGetD r "absolutePath" PyVal.none).isNone)) = true
  · rw [if_pos hc] at h
    cases hA : dictGetD r "absolutePath" PyVal.none with
    | str s =>
      simp only [PyVal.isNone, Bool.not_false, if_true] at h
      rw [hA] at h
      dsimp only at h
      simp only [Bool.false_eq_true, if_false] at h
      repeat' split at h
      all_goals first
        | exact Except.noConfusion h
        | (cases h; exact Or.inl ⟨relpath s, rfl⟩)
    | none =>
      rw [hA] at hc
      simp [PyVal.isNone] at hc
    | bool b => rw [hA] at h; dsimp only at h; exact Except.noConfusion h
    | int n => rw [hA] at h; dsimp only at h; exact Except.noConfusion h
    | symbolKind n => rw [hA] at h; dsimp only at h; exact Except.noConfusion h
    | list xs => rw [hA] at h; dsimp only at h; exact Except.noConfusion h
    | dict kvs => rw [hA] at h; dsimp only at h; exact Except.noConfusion h
  · rw [if_neg hc] at h
    by_cases hP : (dictGetD r "relativePath" PyVal.none).isNone = true
    · have hPn : dictGetD r "relativePath" PyVal.none = PyVal.none := isNone_iff.mp hP
      have hAn : dictGetD r "absolutePath" PyVal.none = PyVal.none := by
        simp only [hP, Bool.true_and] at hc
        exact isNone_iff.mp (by
          cases hAN : (dictGetD r "absolutePath" PyVal.none).isNone with
          | true => rfl
          | false => rw [hAN] at hc; simp at hc)
      have huri : ∃ u, dictGetD r "uri" PyVal.none = PyVal.str u := by
        rcases h3 with hn | hu
        · exact absurd ⟨hPn, hAn, hn⟩ h4
        · exact hu
      obtain ⟨u, hu⟩ := huri
      rw [hPn] at h
      simp only [PyVal.isNone, Bool.not_true, Bool.false_eq_true, if_false,
        eq_self_iff_true, if_true] at h
      repeat' split at h
      all_goals first
        | exact Except.noConfusion h
        | (cases h
           right
           refine ⟨u, ?_⟩
           rw [dictGetD_dictSet_self, hu])
    · have hPs : ∃ ps, dictGetD r "relativePath" PyVal.none = PyVal.str ps := by
        rcases h1 with hn | hs
        · rw [hn] at hP
          simp [PyVal.isNone] at hP
        · exact hs
      obtain ⟨ps, hps⟩ := hPs
      rw [hps] at h
      simp only [PyVal.isNone, Bool.not_false, Bool.false_eq_true, if_true, if_false] at h
      repeat' split at h
      all_goals first
        | exact Except.noConfusion h
        | (cases h; exact Or.inl ⟨ps, rfl⟩)

theorem formatDefinitionEntry_path_or_uri (relpath : String → String)
    (retrieve : PyVal → PyVal → Nat → Nat → String) {r e : PyDict}
    (h1 : dictGetD r "relativePath" PyVal.none = PyVal.none ∨
          ∃ s, dictGetD r "relativePath" PyVal.none = PyVal.str s)
    (h3 : dictGetD r "uri" PyVal.none = PyVal.none ∨
          ∃ s, dictGetD r "uri" PyVal.none = PyVal.str s)
    (h4 : ¬(dictGetD r "relativePath" PyVal.none = PyVal.none ∧
            dictGetD r "absolutePath" PyVal.none = PyVal.none ∧
            dictGetD r "uri" PyVal.none = PyVal.none))
    (h : formatDefinitionEntry relpath retrieve r = Except.ok e) :
    (∃ s, dictGetD e "relative_path" PyVal.none = PyVal.str s) ∨
    (∃ s, dictGetD e "uri" PyVal.none = PyVal.str s) := by
  unfold formatDefinitionEntry at h
  simp only [bind, Except.bind] at h
  by_cases hc : ((dictGetD r "relativePath" PyVal.none).isNone &&
      (!(dictGetD r "absolutePath" PyVal.none).isNone)) = true
  · rw [if_pos hc] at h
    cases hA : dictGetD r "absolutePath" PyVal.none with
    | str s =>
      simp only [PyVal.isNone, Bool.not_false, if_true] at h
      rw [hA] at h
      dsimp only at h
      simp only [Bool.false_eq_true, if_false] at h
      repeat' split at h
      all_goals first
        | exact Except.noConfusion h
        | (cases h; exact Or.inl ⟨relpath s, rfl⟩)
    | none =>
      rw [hA] at hc
      simp [PyVal.isNone] at hc
    | bool b => rw [hA] at h; dsimp only at h; exact Except.noConfusion h
    | int n => rw [hA] at h; dsimp only at h; exact Except.noConfusion h
    | symbolKind n => rw [hA] at h; dsimp only at h; exact Except.noConfusion h
    | list xs => rw [hA] at h; dsimp only at h; exact Except.noConfusion h
    | dict kvs => rw [hA] at h; dsimp only at h; exact Except.noConfusion h
  · rw [if_neg hc] at h
    by_cases hP : (dictGetD r "relativePath" PyVal.none).isNone = true
    · have hPn : dictGetD r "relativePath" PyVal.none = PyVal.none := isNone_iff.mp hP
      have hAn : dictGetD r "absolutePath" PyVal.none = PyVal.none := by
        simp only [hP, Bool.true_and] at hc
        exact isNone_iff.mp (by
          cases hAN : (dictGetD r "absolutePath" PyVal.none).isNone with
          | true => rfl
          | false => rw [hAN] at hc; simp at hc)
      have huri : ∃ u, dictGetD r "uri" PyVal.none = PyVal.str u := by
        rcases h3 with hn | hu
        · exact absurd ⟨hPn, hAn, hn⟩ h4
        · exact hu
      obtain ⟨u, hu⟩ := huri
      rw [hPn] at h
      simp only [PyVal.isNone, Bool.not_true, Bool.false_eq_true, if_false,
        eq_self_iff_true, if_true] at h
      repeat' split at h
      all_goals first
        | exact Except.noConfusion h
        | (cases h
           right
           refine ⟨u, ?_⟩
           rw [dictGetD_dictSet_self, hu])
    · have hPs : ∃ ps, dictGetD r "relativePath" PyVal.none = PyVal.str ps := by
        rcases h1 with hn | hs
        · rw [hn] at hP
          simp [PyVal.isNone] at hP
        · exact hs
      obtain ⟨ps, hps⟩ := hPs
      rw [hps] at h
      simp only [PyVal.isNone, Bool.not_false, Bool.false_eq_true, if_true, if_false] at h
      repeat' split at h
      all_goals first
        | exact Except.noConfusion h
        | (cases h; exact Or.inl ⟨ps, rfl⟩)

theorem cleanDict_has_of_getD_str {kvs : PyDict} {k : String} {s : String}
    (h : dictGetD kvs k PyVal.none = PyVal.str s) :
    dictHas (cleanDict kvs) k = true :=
  dictHas_of_getD_ne_default (cleanDict_getD_str h) (by simp)

/-- **C3** (corrected; amended claim).  When every raw location result
carries string-or-null `relativePath` and `uri` fields and at least one
of `relativePath`, `absolutePath`, `uri` is non-null, then every entry
produced by either entry builder still carries a `relative_path` or a
`uri` after the null/empty-field cleaning pass.  (Without that condition
the invariant fails: a raw result with none of the three yields a cleaned
entry with neither key.) -/
theorem cleaned_entries_path_or_uri (relpath : String → String)
    (retrieve : PyVal → PyVal → Nat → Nat → String)
    (results entries : List PyDict)
    (hH : ∀ r ∈ results,
      (dictGetD r "relativePath" PyVal.none = PyVal.none ∨
        ∃ s, dictGetD r "relativePath" PyVal.none = PyVal.str s) ∧
      (dictGetD r "uri" PyVal.none = PyVal.none ∨
        ∃ s, dictGetD r "uri" PyVal.none = PyVal.str s) ∧
      ¬(dictGetD r "relativePath" PyVal.none = PyVal.none ∧
        dictGetD r "absolutePath" PyVal.none = PyVal.none ∧
        dictGetD r "uri" PyVal.none = PyVal.none)) :
    (formatDefinitionEntries relpath retrieve results = Except.ok entries →
      ∀ w ∈ cleanList (entries.map PyVal.dict), ∃ kvs, w = PyVal.dict kvs ∧
        (dictHas kvs "relative_path" || dictHas kvs "uri") = true) ∧
    (formatReferenceEntries relpath retrieve results = Except.ok entries →
      ∀ w ∈ cleanList (entries.map PyVal.dict), ∃ kvs, w = PyVal.dict kvs ∧
        (dictHas kvs "relative_path" || dictHas kvs "uri") = true) := by
  have step : ∀ (e : PyDict),
      ((∃ s, dictGetD e "relative_path" PyVal.none = PyVal.str s) ∨
       (∃ s, dictGetD e "uri" PyVal.none = PyVal.str s)) →
      (dictHas (cleanDict e) "relative_path" || dictHas (cleanDict e) "uri") = true := by
    intro e he
    rcases he with ⟨s, hs⟩ | ⟨s, hs⟩
    · rw [cleanDict_has_of_getD_str hs]
      rfl
    · rw [cleanDict_has_of_getD_str hs]
      simp
  constructor
  · intro heq w hw
    obtain ⟨x, hx, hwx⟩ := mem_cleanList hw
    obtain ⟨e, he, hxe⟩ := List.mem_map.mp hx
    subst hxe
    subst hwx
    refine ⟨cleanDict e, rfl, ?_⟩
    obtain ⟨r, hr, hre⟩ := mem_mapM_ok heq e he
    obtain ⟨hh1, hh3, hh4⟩ := hH r hr
    exact step e (formatDefinitionEntry_path_or_uri relpath retrieve hh1 hh3 hh4 hre)
  · intro heq w hw
    obtain ⟨x, hx, hwx⟩ := mem_cleanList hw
    obtain ⟨e, he, hxe⟩ := List.mem_map.mp hx
    subst hxe
    subst hwx
    refine ⟨cleanDict e, rfl, ?_⟩
    obtain ⟨r, hr, hre⟩ := mem_mapM_ok heq e he
    obtain ⟨hh1, hh3, hh4⟩ := hH r hr
    exact step e (formatReferenceEntry_path_or_uri relpath retrieve hh1 hh3 hh4 hre)

/-- **C3** (counterexample).  A raw location result with no
`relativePath`, no `absolutePath` and no `uri` (but a valid range)
produces an entry that, after the cleaning pass, carries *neither* a
`relative_path` nor a `uri` — the invariant as claimed fails for such
inputs. -/
theorem entry_path_or_uri_counterexample :
    formatReferenceEntries (fun s => s) (fun _ _ _ _ => "snip")
        [[("range", PyVal.dict
          [("start", PyVal.dict [("line", PyVal.int 0), ("character", PyVal.int 1)]),
           ("end", PyVal.dict [("line", PyVal.int 2), ("character", PyVal.int 3)])])]] =
      Except.ok [[("relative_path", PyVal.none), ("range", PyVal.str "1:2-3:4"),
                  ("snippet", PyVal.none), ("uri", PyVal.none)]] ∧
    cleanNoneAndEmpty (PyVal.list [PyVal.dict
        [("relative_path", PyVal.none), ("range", PyVal.str "1:2-3:4"),
         ("snippet", PyVal.none), ("uri", PyVal.none)]]) =
      PyVal.list [PyVal.dict [("range", PyVal.str "1:2-3:4")]] ∧
    dictHas [("range", PyVal.str "1:2-3:4")] "relative_path" = false ∧
    dictHas [("range", PyVal.str "1:2-3:4")] "uri" = false :=
  ⟨rfl, rfl, rfl, rfl⟩

/-- Witness for `cleaned_entries_path_or_uri` at a raw result carrying
only a `uri`: the single cleaned entry keeps its `uri` key. -/
theorem cleaned_entries_path_or_uri_witness :
    ∃ kvs, PyVal.dict [("uri", PyVal.str "file:///x")] = PyVal.dict kvs ∧
      (dictHas kvs "relative_path" || dictHas kvs "uri") = true :=
  (cleaned_entries_path_or_uri (fun s => s) (fun _ _ _ _ => "snip")
    [[("uri", PyVal.str "file:///x")]]
    [[("relative_path", PyVal.none), ("range", PyVal.none),
      ("snippet", PyVal.none), ("uri", PyVal.str "file:///x")]]
    (by
      intro r hr
      cases hr with
      | head =>
        refine ⟨Or.inl rfl, Or.inr ⟨"file:///x", rfl⟩, ?_⟩
        intro hcontra
        exact PyVal.noConfusion hcontra.2.2
      | tail _ h2 => cases h2)).2 rfl
    (PyVal.dict [("uri", PyVal.str "file:///x")]) (List.mem_cons_self _ _)
